import Mathlib

/-!
Verification development for the miniclue-ai ingestion pipeline.

This file gives a shallow embedding of the ingestion/job-dispatch core
(src/app/services/ingestion/orchestrator.py together with its helper
modules), of the debug-config endpoint (src/app/main.py) and of the
embedding router (src/app/routers/embedding.py), and proves the stated
properties about them.

The helper modules db_utils.py, image_processing.py, text_processing.py
and pubsub_utils.py are imported by the orchestrator but are not part of
the provided sources; their definitions below are modelled from the spec
and are marked as such in their doc comments.
-/

namespace Miniclue

/-- Image bytes, abstracted as a natural number. -/
abbrev Img := Nat

/-- Modelled from the spec: image_processing.py computes a stable content
hash (a cryptographic digest) over the image bytes, so byte-identical
images have identical hashes; collisions are outside the model. -/
def imageHash (b : Img) : Nat := b

/-- Lecture processing states (spec section 4.5). -/
inductive Status
  | queued
  | parsing
  | explaining
  | complete
  | failed
deriving DecidableEq, Repr

/-- Structured error record written on failure: orchestrator.py line 212
builds the dict with keys service and error. -/
structure ErrorInfo where
  service : String
  error : String
deriving DecidableEq, Repr

/-- A row of the lectures table, with the columns the core touches. -/
structure LectureRow where
  id : Nat
  status : Status
  total_slides : Nat
  sub_image_count : Nat
  search_error_details : Option ErrorInfo
  explanation_error_details : Option ErrorInfo
deriving DecidableEq, Repr

/-- A row of the slides table. -/
structure SlideRow where
  id : Nat
  lecture_id : Nat
  slide_number : Nat
  raw_text : String
deriving DecidableEq, Repr

/-- A row of the chunks table. -/
structure ChunkRow where
  slide_id : Nat
  lecture_id : Nat
  slide_number : Nat
  chunk_index : Nat
  text : String
  token_count : Nat
deriving DecidableEq, Repr

/-- SlideImage kind: full page render or embedded content image. -/
inductive ImgType
  | full
  | content
deriving DecidableEq, Repr

/-- A row of the slide_images table. -/
structure SlideImageRow where
  id : Nat
  slide_id : Nat
  lecture_id : Nat
  type : ImgType
  storage_path : String
  image_hash : Nat
deriving DecidableEq, Repr

/-- The database state touched by the ingestion core, with a fresh-id
counter for newly inserted rows. -/
structure DB where
  lectures : List LectureRow
  slides : List SlideRow
  chunks : List ChunkRow
  slide_images : List SlideImageRow
  nextId : Nat
deriving DecidableEq, Repr

/-- S3 object keys, following the two conventions of the spec: content
images at lecture_id/image_hash.png and full renders at
lecture_id/slide_n.png. -/
inductive S3Key
  | slideKey (lecture_id slide_number : Nat)
  | contentKey (lecture_id image_hash : Nat)
deriving DecidableEq, Repr

/-- The concrete string form of a storage key. -/
def S3Key.render : S3Key → String
  | .slideKey lid n => s!"{lid}/slide_{n}.png"
  | .contentKey lid h => s!"{lid}/{h}.png"

/-- Jobs published to Pub/Sub by the dispatcher, as recorded in the
observable trace of a run. -/
inductive Event
  | commit (slide_number : Nat)
  | statusWrite (s : Status)
  | pubExplanation (slide_id slide_number : Nat) (slide_image_path : String)
  | pubImageAnalysis (slide_image_id image_hash : Nat)
  | pubEmbedding (lecture_id : Nat)
deriving DecidableEq, Repr

/-- True for the per-slide transaction commit events. -/
def Event.isCommit : Event → Bool
  | .commit _ => true
  | _ => false

/-- True for the three kinds of job-publish events. -/
def Event.isPublish : Event → Bool
  | .pubExplanation _ _ _ => true
  | .pubImageAnalysis _ _ => true
  | .pubEmbedding _ => true
  | _ => false

/-- True for the embedding-job publish events. -/
def Event.isEmbedding : Event → Bool
  | .pubEmbedding _ => true
  | _ => false

/-- The image hash carried by an image-analysis publish event. -/
def Event.iaHash : Event → Option Nat
  | .pubImageAnalysis _ h => some h
  | _ => none

/-- The pending image-analysis job dict built during the slide loop
(orchestrator.py lines 182-190 read these three fields back out). -/
structure IAJob where
  slide_image_id : Nat
  lecture_id : Nat
  image_hash : Nat
deriving DecidableEq, Repr

/-- The world state of one run: database, object storage, the observable
event trace, and the open/closed state of the three scoped resources. -/
structure World where
  db : DB
  storage : List (S3Key × Img)
  trace : List Event
  docOpen : Bool
  s3Open : Bool
  connOpen : Bool
deriving DecidableEq, Repr

/-- One page of the opened document: extracted text, the rendered
full-page bytes, and the embedded sub-images in extraction order. -/
structure Page where
  text : String
  render : Img
  sub_images : List Img
deriving DecidableEq, Repr

/-- The opened document (pymupdf.Document): an ordered list of pages. -/
structure Doc where
  pages : List Page
deriving DecidableEq, Repr

/-- Exceptions that the embedded run can raise. -/
inductive Err
  | attributeError
  | runtimeError (m : String)
  | connectError
  | downloadError
  | persistError (slide_number : Nat)
deriving DecidableEq, Repr

/-- The str(e) rendering used in the error-details record. -/
def Err.msg : Err → String
  | .attributeError => "AttributeError"
  | .runtimeError m => m
  | .connectError => "connection failed"
  | .downloadError => "download failed"
  | .persistError n => s!"slide {n} persistence failed"

/-- The environment of a run: whether the database connection succeeds,
the result of downloading and opening the document (none means the
download or open raises), and an injected fault that makes slide n's
persistence raise inside its transaction. -/
structure Env where
  connectOk : Bool
  pdf : Option Doc
  slideFault : Nat → Bool

/-- The application settings (src/app/utils/config.py), all fields. -/
structure Settings where
  s3_access_key : String
  s3_secret_key : String
  s3_bucket_name : String
  s3_endpoint_url : String
  postgres_dsn : String
  gcp_project_id : String
  ingestion_topic : String
  image_analysis_topic : String
  embedding_topic : String
  explanation_topic : String
  summary_topic : String
  embedding_model : String
  openai_api_key : String
  openai_api_base_url : String
  xai_api_key : String
  xai_api_base_url : String
  mock_llm_calls : Bool
deriving DecidableEq, Repr

/-- The ingestion payload exactly as declared in
src/app/schemas/ingestion.py: only these two fields exist. -/
structure IngestionPayload where
  lecture_id : Nat
  storage_path : String
deriving DecidableEq, Repr

/-- The attribute names that IngestionPayload instances actually have
(its pydantic model fields, src/app/schemas/ingestion.py lines 5-7). -/
def IngestionPayload.fields : List String := ["lecture_id", "storage_path"]

/-- Modelled from the spec: the fixed maximum tokens-per-chunk policy of
text_processing.py. The exact cap is not given by the sources; any
positive constant plays the same role in the properties proved here. -/
def max_tokens_per_chunk : Nat := 512

/-- Structural worker for tokenize: splits the character list at
whitespace, accumulating the current word reversed. -/
def tokenizeAux : List Char → List Char → List String
  | [], cur => if cur.isEmpty then [] else [String.mk cur.reverse]
  | c :: cs, cur =>
      if c.isWhitespace then
        if cur.isEmpty then tokenizeAux cs []
        else String.mk cur.reverse :: tokenizeAux cs []
      else tokenizeAux cs (c :: cur)

/-- Modelled from the spec: tokenization of a slide's raw text, words
separated by whitespace. -/
def tokenize (t : String) : List String :=
  tokenizeAux t.data []

/-- Structural worker for groupTokens: the fuel bounds the number of
groups and is always sufficient when it starts at the token count. -/
def groupTokensAux : Nat → List String → List (List String)
  | _, [] => []
  | 0, _ :: _ => []
  | fuel + 1, t :: ts =>
      ((t :: ts).take max_tokens_per_chunk)
        :: groupTokensAux fuel ((t :: ts).drop max_tokens_per_chunk)

/-- Modelled from the spec: greedy grouping of the token list into
consecutive groups of at most max_tokens_per_chunk tokens. -/
def groupTokens (ts : List String) : List (List String) :=
  groupTokensAux ts.length ts

/-- Modelled from the spec: chunk_text_by_tokens (text_processing.py)
splits the raw text into an ordered sequence of (chunk text, token count)
pairs on a token budget; empty input yields an empty sequence. -/
def chunk_text_by_tokens (t : String) : List (String × Nat) :=
  (groupTokens (tokenize t)).map (fun g => (" ".intercalate g, g.length))

/-- Looks up a lecture row by id. -/
def lectureById (db : DB) (lid : Nat) : Option LectureRow :=
  db.lectures.find? (fun r => r.id == lid)

/-- Modelled from the spec: verify_lecture_exists (db_utils.py) checks
that a lectures row with the given id exists. -/
def verify_lecture_exists (db : DB) (lid : Nat) : Bool :=
  (lectureById db lid).isSome

/-- Applies an update to every lecture row with the given id. -/
def updateLecture (db : DB) (lid : Nat) (f : LectureRow → LectureRow) : DB :=
  { db with lectures := db.lectures.map (fun r => if r.id == lid then f r else r) }

/-- The inline UPDATE of orchestrator.py lines 86-89: clears both error
detail columns before a fresh run. -/
def clear_error_details (db : DB) (lid : Nat) : DB :=
  updateLecture db lid fun r =>
    { r with search_error_details := none, explanation_error_details := none }

/-- Modelled from the spec: set_lecture_parsing (db_utils.py) writes
status parsing together with total_slides; the write is an observable
status event. -/
def set_lecture_parsing (w : World) (lid total : Nat) : World :=
  { w with
    db := updateLecture w.db lid fun r => { r with status := .parsing, total_slides := total },
    trace := w.trace ++ [.statusWrite .parsing] }

/-- Modelled from the spec: update_lecture_status (db_utils.py) writes
the given status, and sets search_error_details when one is supplied. -/
def update_lecture_status (w : World) (lid : Nat) (s : Status)
    (errd : Option ErrorInfo) : World :=
  { w with
    db := updateLecture w.db lid fun r =>
      { r with status := s,
               search_error_details :=
                 match errd with
                 | some d => some d
                 | none => r.search_error_details },
    trace := w.trace ++ [.statusWrite s] }

/-- Modelled from the spec: update_lecture_sub_image_count (db_utils.py)
records the number of unique content images on the lecture row. -/
def update_lecture_sub_image_count (w : World) (lid cnt : Nat) : World :=
  { w with db := updateLecture w.db lid fun r => { r with sub_image_count := cnt } }

/-- Finds the slide row keyed by (lecture_id, slide_number). -/
def findSlide (db : DB) (lid n : Nat) : Option SlideRow :=
  db.slides.find? (fun s => s.lecture_id == lid && s.slide_number == n)

/-- Modelled from the spec: get_or_create_slide (db_utils.py) returns the
existing slide row id for (lecture_id, slide_number) or inserts a fresh
row and returns its id. -/
def get_or_create_slide (db : DB) (lid n : Nat) (raw : String) : DB × Nat :=
  match findSlide db lid n with
  | some s => (db, s.id)
  | none =>
      ({ db with
          slides := db.slides ++ [⟨db.nextId, lid, n, raw⟩],
          nextId := db.nextId + 1 },
       db.nextId)

/-- Modelled from the spec: get_or_create_chunk (db_utils.py) inserts the
chunk row unless one already exists for (slide_id, chunk_index). -/
def get_or_create_chunk (db : DB) (slide_id lid n idx : Nat)
    (text : String) (tc : Nat) : DB :=
  if db.chunks.any (fun c => c.slide_id == slide_id && c.chunk_index == idx) then db
  else { db with chunks := db.chunks ++ [⟨slide_id, lid, n, idx, text, tc⟩] }

/-- Inserts all chunk rows of a slide, in chunk order (the enumerate loop
of orchestrator.py lines 120-129). -/
def insertChunks (db : DB) (slide_id lid n : Nat) (cs : List (String × Nat)) : DB :=
  cs.enum.foldl (fun d p => get_or_create_chunk d slide_id lid n p.1 p.2.1 p.2.2) db

/-- Modelled from the spec: render_and_upload_slide_image
(image_processing.py) renders the page, uploads the bytes under the
slide-addressed key, and inserts the full SlideImage row. -/
def render_and_upload_slide_image (w : World) (page : Page)
    (lid slide_id n : Nat) : World :=
  let key := S3Key.slideKey lid n
  let row : SlideImageRow :=
    ⟨w.db.nextId, slide_id, lid, .full, key.render, imageHash page.render⟩
  { w with
    db := { w.db with
            slide_images := w.db.slide_images ++ [row],
            nextId := w.db.nextId + 1 },
    storage := w.storage ++ [(key, page.render)] }

/-- Association lookup in the run-scoped hash map. -/
def lookupHash : List (Nat × Nat) → Nat → Option Nat
  | [], _ => none
  | (k, v) :: rest, h => if k = h then some v else lookupHash rest h

/-- Modelled from the spec: process_slide_sub_images (image_processing.py)
resolves each embedded image through the run-scoped hash map: a hash
already in the map contributes nothing new; a new hash is uploaded under
its content-addressed key, gets one content SlideImage row, is added to
the map, and contributes one pending image-analysis job. -/
def process_slide_sub_images (w : World) (lid slide_id : Nat) (imgs : List Img)
    (map : List (Nat × Nat)) (jobs : List IAJob) :
    World × List (Nat × Nat) × List IAJob :=
  match imgs with
  | [] => (w, map, jobs)
  | b :: rest =>
      let h := imageHash b
      match lookupHash map h with
      | some _ => process_slide_sub_images w lid slide_id rest map jobs
      | none =>
          let key := S3Key.contentKey lid h
          let newId := w.db.nextId
          let row : SlideImageRow := ⟨newId, slide_id, lid, .content, key.render, h⟩
          let w1 : World :=
            { w with
              db := { w.db with
                      slide_images := w.db.slide_images ++ [row],
                      nextId := newId + 1 },
              storage := w.storage ++ [(key, b)] }
          process_slide_sub_images w1 lid slide_id rest
            (map ++ [(h, newId)]) (jobs ++ [⟨newId, lid, h⟩])

/-- The body of one slide's transaction (orchestrator.py lines 113-144):
slide row, chunk rows, full render, sub-image resolution; the injected
fault makes the persistence of this slide raise as its final step. -/
def runSlideBody (env : Env) (lid : Nat) (page : Page) (n : Nat) (w : World)
    (map : List (Nat × Nat)) (jobs : List IAJob) :
    World × List (Nat × Nat) × List IAJob × Except Err Unit :=
  let g := get_or_create_slide w.db lid n page.text
  let db2 := insertChunks g.1 g.2 lid n (chunk_text_by_tokens page.text)
  let w2 := render_and_upload_slide_image { w with db := db2 } page lid g.2 n
  let r := process_slide_sub_images w2 lid g.2 page.sub_images map jobs
  if env.slideFault n then (r.1, r.2.1, r.2.2, .error (.persistError n))
  else (r.1, r.2.1, r.2.2, .ok ())

/-- One slide wrapped in conn.transaction() (orchestrator.py line 112):
on success the transaction commits (observable commit event); on failure
the database reverts to its state at transaction start while non-database
effects (uploads, the run-scoped map, the pending job list) persist. -/
def runSlideTxn (env : Env) (lid : Nat) (page : Page) (n : Nat) (w : World)
    (map : List (Nat × Nat)) (jobs : List IAJob) :
    World × List (Nat × Nat) × List IAJob × Except Err Unit :=
  let r := runSlideBody env lid page n w map jobs
  match r.2.2.2 with
  | .ok _ => ({ r.1 with trace := r.1.trace ++ [.commit n] }, r.2.1, r.2.2.1, .ok ())
  | .error e => ({ r.1 with db := w.db }, r.2.1, r.2.2.1, .error e)

/-- The sequential per-page loop (orchestrator.py lines 108-144): one
transaction per slide, stopping at the first failure. -/
def processSlides (env : Env) (lid : Nat) (pages : List Page) (n : Nat)
    (w : World) (map : List (Nat × Nat)) (jobs : List IAJob) :
    World × List (Nat × Nat) × List IAJob × Except Err Unit :=
  match pages with
  | [] => (w, map, jobs, .ok ())
  | page :: rest =>
      let r := runSlideTxn env lid page n w map jobs
      match r.2.2.2 with
      | .ok _ => processSlides env lid rest (n + 1) r.1 r.2.1 r.2.2.1
      | .error _ => r

/-- Modelled from the spec: get_slides_with_images_for_lecture
(db_utils.py) returns, for each slide of the lecture, its id, its slide
number, and the storage path of its full SlideImage row when present. -/
def get_slides_with_images_for_lecture (db : DB) (lid : Nat) :
    List (Nat × Nat × Option String) :=
  (db.slides.filter (fun s => s.lecture_id == lid)).map fun s =>
    (s.id, s.slide_number,
      (db.slide_images.find? (fun i => i.slide_id == s.id && i.type == ImgType.full)).map
        (fun i => i.storage_path))

/-- The explanation-job loop (orchestrator.py lines 160-176): publish one
job per slide with a full image path, skip slides without one. -/
def dispatch_explanations (w : World) (recs : List (Nat × Nat × Option String)) : World :=
  recs.foldl
    (fun wa r =>
      match r with
      | (sid, n, some path) => { wa with trace := wa.trace ++ [.pubExplanation sid n path] }
      | (_, _, none) => wa)
    w

/-- The tail dispatch (orchestrator.py lines 178-200): image-analysis
jobs when unique sub-images exist, otherwise the single embedding job. -/
def dispatch_tail (w : World) (lid total_sub : Nat) (jobs : List IAJob) : World :=
  if total_sub > 0 then
    { w with trace := w.trace ++ jobs.map (fun j => .pubImageAnalysis j.slide_image_id j.image_hash) }
  else
    { w with trace := w.trace ++ [.pubEmbedding lid] }

/-- The state just before the per-page loop of a run that got past
verification: cleared error fields, open document, and the parsing
status write with the page count (orchestrator.py lines 84-103). -/
def preCore (w : World) (lid total : Nat) : World :=
  set_lecture_parsing { w with db := clear_error_details w.db lid, docOpen := true } lid total

/-- The post-loop section of a successful run (orchestrator.py lines
146-200): sub-image count, the explaining status write, and both
dispatch phases in order. -/
def postLoop (wd : World) (lid total_sub : Nat) (jobs : List IAJob) : World :=
  let we := update_lecture_status (update_lecture_sub_image_count wd lid total_sub)
    lid .explaining none
  dispatch_tail (dispatch_explanations we (get_slides_with_images_for_lecture we.db lid))
    lid total_sub jobs

/-- The try-block of ingest after the connections are up
(orchestrator.py lines 75-205). -/
def ingest_core (env : Env) (lid : Nat) (w : World) : World × Except Err Unit :=
  if !verify_lecture_exists w.db lid then (w, .ok ())
  else
    match env.pdf with
    | none => ({ w with db := clear_error_details w.db lid }, .error .downloadError)
    | some doc =>
        let r := processSlides env lid doc.pages 1 (preCore w lid doc.pages.length) [] []
        match r.2.2.2 with
        | .error e => (r.1, .error e)
        | .ok _ => (postLoop r.1 lid r.2.1.length r.2.2.1, .ok ())

/-- The finally-block (orchestrator.py lines 218-226): close the
document, the storage client, and the database connection. -/
def cleanup (w : World) : World :=
  { w with docOpen := false, s3Open := false, connOpen := false }

/-- The ingestion workflow given the already-destructured payload values
(orchestrator.py lines 52-227): DSN guard, resource acquisition, the
try-body, the except-handler that marks the lecture failed and re-raises,
and the finally-handler that releases every acquired resource. -/
def ingest_run (env : Env) (settings : Settings) (lid : Nat)
    (storage_path customer_identifier name0 em0 : String) (w : World) :
    World × Except Err Unit :=
  if settings.postgres_dsn = "" then
    (w, .error (.runtimeError "Postgres DSN not configured"))
  else
    let w1 := { w with s3Open := true }
    if !env.connectOk then (cleanup w1, .error .connectError)
    else
      let w2 := { w1 with connOpen := true }
      let r := ingest_core env lid w2
      match r.2 with
      | .ok _ => (cleanup r.1, .ok ())
      | .error e =>
          let w4 := update_lecture_status r.1 lid .failed (some ⟨"ingestion", e.msg⟩)
          (cleanup w4, .error e)

/-- The ingest entry point exactly as called with an IngestionPayload
(orchestrator.py lines 36-43): the destructuring reads
payload.customer_identifier, payload.name and payload.email, attributes
that IngestionPayload does not declare, so the attribute access raises
before anything else runs. -/
def ingest (env : Env) (settings : Settings) (p : IngestionPayload) (w : World) :
    World × Except Err Unit :=
  let lid := p.lecture_id
  let sp := p.storage_path
  if "customer_identifier" ∈ IngestionPayload.fields then
    ingest_run env settings lid sp "" "" "" w
  else
    (w, .error .attributeError)

/-- A JSON-serializable configuration value, as produced by pydantic's
model_dump for the Settings fields (strings and one boolean). -/
inductive CfgVal
  | str (s : String)
  | bool (b : Bool)
deriving DecidableEq, Repr

/-- The pydantic model_dump of Settings: every declared field with its
current value, in declaration order (src/app/utils/config.py). -/
def Settings.model_dump (s : Settings) : List (String × CfgVal) :=
  [("s3_access_key", .str s.s3_access_key),
   ("s3_secret_key", .str s.s3_secret_key),
   ("s3_bucket_name", .str s.s3_bucket_name),
   ("s3_endpoint_url", .str s.s3_endpoint_url),
   ("postgres_dsn", .str s.postgres_dsn),
   ("gcp_project_id", .str s.gcp_project_id),
   ("ingestion_topic", .str s.ingestion_topic),
   ("image_analysis_topic", .str s.image_analysis_topic),
   ("embedding_topic", .str s.embedding_topic),
   ("explanation_topic", .str s.explanation_topic),
   ("summary_topic", .str s.summary_topic),
   ("embedding_model", .str s.embedding_model),
   ("openai_api_key", .str s.openai_api_key),
   ("openai_api_base_url", .str s.openai_api_base_url),
   ("xai_api_key", .str s.xai_api_key),
   ("xai_api_base_url", .str s.xai_api_base_url),
   ("mock_llm_calls", .bool s.mock_llm_calls)]

/-- The GET /debug/config handler (src/app/main.py lines 98-102): builds
a fresh Settings from the current environment and returns its full
model_dump. The parameter is the Settings the fresh construction reads. -/
def debug_config (current : Settings) : List (String × CfgVal) :=
  current.model_dump

/-- HTTP outcomes of the embedding router. -/
inductive HttpResponse
  | noContent
  | serverError (detail : String)
deriving DecidableEq, Repr

/-- The HTTP status code of a response. -/
def HttpResponse.code : HttpResponse → Nat
  | .noContent => 204
  | .serverError _ => 500

/-- Modelled from the spec: the inbound Pub/Sub push request body
(schemas/common.py), whose message.data carries the job payload as a
JSON object, here an association list. -/
structure PubSubMessage where
  data : List (String × String)
deriving DecidableEq, Repr

/-- Modelled from the spec: EmbeddingPayload (schemas/embedding.py), the
embedding job payload with the lecture id. -/
structure EmbeddingPayload where
  lecture_id : String
deriving DecidableEq, Repr

/-- Parsing EmbeddingPayload(**request.message.data): succeeds exactly
when the message is a well-formed embedding job carrying lecture_id. -/
def parseEmbeddingPayload (data : List (String × String)) : Option EmbeddingPayload :=
  (data.lookup "lecture_id").map (fun v => ⟨v⟩)

/-- The POST /embedding handler (src/app/routers/embedding.py lines
14-27): parses the payload, logs a placeholder warning instead of doing
any embedding work, touches no persistent state, and returns 204; a
parse failure is turned into a 500 error. -/
def handle_embedding_job (req : PubSubMessage) (w : World) : World × HttpResponse :=
  match parseEmbeddingPayload req.data with
  | some _ => (w, .noContent)
  | none => (w, .serverError "Failed to process embedding job")

/-- The number of content SlideImage rows with a given hash. -/
def countContentRows (db : DB) (h : Nat) : Nat :=
  (db.slide_images.filter (fun r => r.type == ImgType.content && r.image_hash == h)).length

/-- The number of stored objects under the content-addressed key of a
given hash for a given lecture. -/
def countContentUploads (lid : Nat) (st : List (S3Key × Img)) (h : Nat) : Nat :=
  (st.filter (fun kv => kv.1 == S3Key.contentKey lid h)).length

/-- The image hashes of the image-analysis jobs published in a trace,
in publish order. -/
def iaHashes (tr : List Event) : List Nat :=
  tr.filterMap Event.iaHash

/-- The number of embedding jobs published in a trace. -/
def countEmbPub (tr : List Event) : Nat :=
  (tr.filter Event.isEmbedding).length

/-- Appends a hash to the accumulator unless already present. -/
def addHash (acc : List Nat) (h : Nat) : List Nat :=
  if h ∈ acc then acc else acc ++ [h]

/-- The first occurrences of the hashes of an image sequence, in order,
continuing a given accumulator. -/
def firstOccs (acc : List Nat) (l : List Img) : List Nat :=
  l.foldl (fun a b => addHash a (imageHash b)) acc

/-- All embedded images of a page list, in document order. -/
def pagesImgs (pages : List Page) : List Img :=
  (pages.map Page.sub_images).flatten

/-- All embedded images of a document, in document order. -/
def allImgs (doc : Doc) : List Img :=
  pagesImgs doc.pages

/-- The pre-loop state as reached from ingest_run, with the storage
client and database connection acquired. -/
def preLoop (w : World) (lid total : Nat) : World :=
  preCore { w with s3Open := true, connOpen := true } lid total

/-- The deduplication invariant carried through the slide loop: the
pending jobs mirror the map keys one-to-one, the keys are distinct, and
each hash has exactly one content row and one content upload exactly
when it is in the map. -/
def DedupInv (lid : Nat) (w : World) (map : List (Nat × Nat)) (jobs : List IAJob) : Prop :=
  jobs.map IAJob.image_hash = map.map Prod.fst
  ∧ (map.map Prod.fst).Nodup
  ∧ (∀ h, countContentRows w.db h = if h ∈ map.map Prod.fst then 1 else 0)
  ∧ (∀ h, countContentUploads lid w.storage h = if h ∈ map.map Prod.fst then 1 else 0)

/-- A sample lecture row used by the concrete witnesses. -/
def sampleLecture : LectureRow := ⟨1, .queued, 0, 0, none, none⟩

/-- A sample fresh world with one lecture and empty derived tables. -/
def sampleWorld : World := ⟨⟨[sampleLecture], [], [], [], 100⟩, [], [], false, false, false⟩

/-- A sample settings value with a configured DSN. -/
def sampleSettings : Settings :=
  ⟨"ak", "sk", "bucket", "", "postgres://db", "", "", "", "", "", "", "m", "ok", "", "xk", "", false⟩

/-- A two-page document in which image 5 occurs on both pages. -/
def sampleDocDup : Doc := ⟨[⟨"a b", 7, [5, 6]⟩, ⟨"c", 8, [5]⟩]⟩

/-- A two-page document with no embedded images. -/
def sampleDocNoImg : Doc := ⟨[⟨"a", 7, []⟩, ⟨"", 8, []⟩]⟩

/-- A three-page document with no embedded images. -/
def sampleDocThree : Doc := ⟨[⟨"a", 7, []⟩, ⟨"b", 8, []⟩, ⟨"c", 9, []⟩]⟩

/-- A fault-free environment over the duplicated-image document. -/
def sampleEnvDup : Env := ⟨true, some sampleDocDup, fun _ => false⟩

/-- A fault-free environment over the image-free document. -/
def sampleEnvNoImg : Env := ⟨true, some sampleDocNoImg, fun _ => false⟩

/-- An environment whose slide 2 persistence fails, over the three-page
document. -/
def sampleEnvFault2 : Env := ⟨true, some sampleDocThree, fun n => n == 2⟩

/-- Every token group produced by the grouping worker has at most
max_tokens_per_chunk elements. -/
theorem groupTokensAux_length_le :
    ∀ (fuel : Nat) (ts : List String), ∀ g ∈ groupTokensAux fuel ts,
      g.length ≤ max_tokens_per_chunk := by
  intro fuel
  induction fuel with
  | zero =>
      intro ts g hg
      cases ts <;> simp [groupTokensAux] at hg
  | succ m ih =>
      intro ts g hg
      cases ts with
      | nil => simp [groupTokensAux] at hg
      | cons t rest =>
          simp only [groupTokensAux, List.mem_cons] at hg
          rcases hg with rfl | hg2
          · exact List.length_take_le _ _
          · exact ih _ g hg2

/-- With sufficient fuel the groups concatenate back to the token list:
the grouping drops nothing and the fuel bound is adequate. -/
theorem groupTokensAux_join :
    ∀ (fuel : Nat) (ts : List String), ts.length ≤ fuel →
      (groupTokensAux fuel ts).flatten = ts := by
  intro fuel
  induction fuel with
  | zero =>
      intro ts h
      cases ts with
      | nil => simp [groupTokensAux]
      | cons t rest => simp at h
  | succ m ih =>
      intro ts h
      cases ts with
      | nil => simp [groupTokensAux]
      | cons t rest =>
          have hcap : 0 < max_tokens_per_chunk := by norm_num [max_tokens_per_chunk]
          have hlen : ((t :: rest).drop max_tokens_per_chunk).length ≤ m := by
            simp only [List.length_drop, List.length_cons]
            simp only [List.length_cons] at h
            omega
          simp only [groupTokensAux, List.flatten_cons]
          rw [ih _ hlen, List.take_append_drop]

/-- C7: the chunker is deterministic (identical input text yields the
identical chunk sequence), every produced chunk's token count is at most
the configured maximum tokens-per-chunk, and empty input yields the
empty sequence. -/
theorem C7_chunker_deterministic_and_bounded (t : String) :
    chunk_text_by_tokens t = chunk_text_by_tokens t
    ∧ (∀ p ∈ chunk_text_by_tokens t, p.2 ≤ max_tokens_per_chunk)
    ∧ chunk_text_by_tokens "" = [] := by
  refine ⟨rfl, ?_, rfl⟩
  intro p hp
  simp only [chunk_text_by_tokens, List.mem_map] at hp
  obtain ⟨g, hg, rfl⟩ := hp
  exact groupTokensAux_length_le _ _ g hg

/-- C9: the GET /debug/config response is the complete configuration
dump, and it carries the secret values s3_secret_key, postgres_dsn,
openai_api_key and xai_api_key verbatim, unredacted. -/
theorem C9_debug_config_leaks_secrets (s : Settings) :
    debug_config s = s.model_dump
    ∧ ("s3_secret_key", CfgVal.str s.s3_secret_key) ∈ debug_config s
    ∧ ("postgres_dsn", CfgVal.str s.postgres_dsn) ∈ debug_config s
    ∧ ("openai_api_key", CfgVal.str s.openai_api_key) ∈ debug_config s
    ∧ ("xai_api_key", CfgVal.str s.xai_api_key) ∈ debug_config s := by
  refine ⟨rfl, ?_, ?_, ?_, ?_⟩ <;> simp [debug_config, Settings.model_dump]

/-- C10: a well-formed embedding job message is consumed as a no-op: the
handler leaves all state untouched and answers 204 No Content. -/
theorem C10_embedding_handler_noop (req : PubSubMessage) (w : World)
    (p : EmbeddingPayload) (hp : parseEmbeddingPayload req.data = some p) :
    handle_embedding_job req w = (w, .noContent)
    ∧ (handle_embedding_job req w).2.code = 204 := by
  constructor
  · simp [handle_embedding_job, hp]
  · simp [handle_embedding_job, hp, HttpResponse.code]

/-- Witness for C10 at a concrete well-formed message. -/
theorem C10_embedding_handler_noop_witness :
    handle_embedding_job ⟨[("lecture_id", "L1")]⟩ sampleWorld = (sampleWorld, .noContent)
    ∧ (handle_embedding_job ⟨[("lecture_id", "L1")]⟩ sampleWorld).2.code = 204 :=
  C10_embedding_handler_noop ⟨[("lecture_id", "L1")]⟩ sampleWorld ⟨"L1"⟩ rfl

/-- C5 (code bug): calling ingest on a payload whose lecture id is not
in the database mutates nothing and publishes nothing, but instead of
returning normally it raises: the destructure of
payload.customer_identifier fails because IngestionPayload declares only
lecture_id and storage_path. Evaluated at a concrete missing id. -/
theorem C5_missing_lecture_raises_attribute_error :
    ingest ⟨true, some sampleDocNoImg, fun _ => false⟩ sampleSettings ⟨99, "path.pdf"⟩ sampleWorld
      = (sampleWorld, .error .attributeError)
    ∧ lectureById sampleWorld.db 99 = none
    ∧ ("customer_identifier" ∈ IngestionPayload.fields) = False := by
  refine ⟨rfl, rfl, ?_⟩
  simp [IngestionPayload.fields]

/-- C8: on every exit path of the workflow, successful or raising, the
document handle, the storage client and the database connection are all
released by the time control leaves ingest. -/
theorem C8_resources_released (env : Env) (settings : Settings) (lid : Nat)
    (sp cid nm em : String) (w : World)
    (h : w.docOpen = false ∧ w.s3Open = false ∧ w.connOpen = false) :
    ((ingest_run env settings lid sp cid nm em w).1.docOpen = false
      ∧ (ingest_run env settings lid sp cid nm em w).1.s3Open = false
      ∧ (ingest_run env settings lid sp cid nm em w).1.connOpen = false) := by
  unfold ingest_run
  dsimp only
  split
  · exact h
  · split
    · simp [cleanup]
    · split <;> simp [cleanup]

/-- Witness for C8 on a run that completes successfully. -/
theorem C8_resources_released_witness :
    ((ingest_run sampleEnvNoImg sampleSettings 1 "p" "c" "n" "e" sampleWorld).1.docOpen = false
      ∧ (ingest_run sampleEnvNoImg sampleSettings 1 "p" "c" "n" "e" sampleWorld).1.s3Open = false
      ∧ (ingest_run sampleEnvNoImg sampleSettings 1 "p" "c" "n" "e" sampleWorld).1.connOpen = false) :=
  C8_resources_released sampleEnvNoImg sampleSettings 1 "p" "c" "n" "e" sampleWorld
    ⟨rfl, rfl, rfl⟩

/-- lookupHash misses exactly the hashes outside the map keys. -/
theorem lookupHash_eq_none_iff :
    ∀ (map : List (Nat × Nat)) (h : Nat),
      lookupHash map h = none ↔ h ∉ map.map Prod.fst := by
  intro map h
  induction map with
  | nil => simp [lookupHash]
  | cons kv rest ih =>
      cases kv with
      | mk k v =>
          by_cases hk : k = h
          · subst hk; simp [lookupHash]
          · have hk2 : ¬h = k := fun hh => hk hh.symm
            simp [lookupHash, hk, hk2, ih]

/-- A commit event is not a publish event. -/
theorem isCommit_not_publish : ∀ e : Event, e.isCommit = true → e.isPublish = false := by
  intro e h
  cases e <;> simp_all [Event.isCommit, Event.isPublish]

/-- Frame of the sub-image resolver: the trace, the slide rows, the
chunk rows and the lecture rows are untouched. -/
theorem psi_frame :
    ∀ (imgs : List Img) (w : World) (lid sid : Nat) (map : List (Nat × Nat))
      (jobs : List IAJob),
      (process_slide_sub_images w lid sid imgs map jobs).1.trace = w.trace
      ∧ (process_slide_sub_images w lid sid imgs map jobs).1.db.slides = w.db.slides
      ∧ (process_slide_sub_images w lid sid imgs map jobs).1.db.chunks = w.db.chunks
      ∧ (process_slide_sub_images w lid sid imgs map jobs).1.db.lectures = w.db.lectures := by
  intro imgs
  induction imgs with
  | nil => intro w lid sid map jobs; exact ⟨rfl, rfl, rfl, rfl⟩
  | cons b rest ih =>
      intro w lid sid map jobs
      unfold process_slide_sub_images
      dsimp only
      split
      · exact ih w lid sid map jobs
      · exact ih _ lid sid _ _

/-- Frame of get_or_create_slide: only the slide rows and the id counter
can change. -/
theorem gocs_frame (db : DB) (lid n : Nat) (raw : String) :
    (get_or_create_slide db lid n raw).1.lectures = db.lectures
    ∧ (get_or_create_slide db lid n raw).1.chunks = db.chunks
    ∧ (get_or_create_slide db lid n raw).1.slide_images = db.slide_images := by
  rcases hf : findSlide db lid n with _ | s <;> simp [get_or_create_slide, hf]

/-- Frame of get_or_create_chunk: only the chunk rows can change. -/
theorem gocc_frame (db : DB) (sid lid n idx : Nat) (t : String) (tc : Nat) :
    (get_or_create_chunk db sid lid n idx t tc).lectures = db.lectures
    ∧ (get_or_create_chunk db sid lid n idx t tc).slides = db.slides
    ∧ (get_or_create_chunk db sid lid n idx t tc).slide_images = db.slide_images
    ∧ (get_or_create_chunk db sid lid n idx t tc).nextId = db.nextId := by
  unfold get_or_create_chunk
  split <;> exact ⟨rfl, rfl, rfl, rfl⟩

/-- Frame of the chunk-insertion fold underlying insertChunks. -/
theorem chunkFold_frame :
    ∀ (l : List (Nat × String × Nat)) (db : DB) (sid lid n : Nat),
      ((l.foldl (fun d p => get_or_create_chunk d sid lid n p.1 p.2.1 p.2.2) db).lectures
          = db.lectures
       ∧ (l.foldl (fun d p => get_or_create_chunk d sid lid n p.1 p.2.1 p.2.2) db).slides
          = db.slides
       ∧ (l.foldl (fun d p => get_or_create_chunk d sid lid n p.1 p.2.1 p.2.2) db).slide_images
          = db.slide_images
       ∧ (l.foldl (fun d p => get_or_create_chunk d sid lid n p.1 p.2.1 p.2.2) db).nextId
          = db.nextId) := by
  intro l
  induction l with
  | nil => intro db sid lid n; exact ⟨rfl, rfl, rfl, rfl⟩
  | cons p rest ih =>
      intro db sid lid n
      simp only [List.foldl_cons]
      have h2 := ih (get_or_create_chunk db sid lid n p.1 p.2.1 p.2.2) sid lid n
      have h3 := gocc_frame db sid lid n p.1 p.2.1 p.2.2
      exact ⟨h2.1.trans h3.1, h2.2.1.trans h3.2.1,
             h2.2.2.1.trans h3.2.2.1, h2.2.2.2.trans h3.2.2.2⟩

/-- Frame of insertChunks. -/
theorem insertChunks_frame (db : DB) (sid lid n : Nat) (cs : List (String × Nat)) :
    (insertChunks db sid lid n cs).lectures = db.lectures
    ∧ (insertChunks db sid lid n cs).slides = db.slides
    ∧ (insertChunks db sid lid n cs).slide_images = db.slide_images
    ∧ (insertChunks db sid lid n cs).nextId = db.nextId :=
  chunkFold_frame cs.enum db sid lid n

/-- Frame of the slide-transaction body: the trace and the lecture rows
are untouched. -/
theorem rsb_frame (env : Env) (lid : Nat) (page : Page) (n : Nat) (w : World)
    (map : List (Nat × Nat)) (jobs : List IAJob) :
    (runSlideBody env lid page n w map jobs).1.trace = w.trace
    ∧ (runSlideBody env lid page n w map jobs).1.db.lectures = w.db.lectures := by
  unfold runSlideBody
  dsimp only
  constructor
  · split <;> exact (psi_frame _ _ _ _ _ _).1
  · split <;>
    · refine ((psi_frame _ _ _ _ _ _).2.2.2).trans ?_
      refine ((insertChunks_frame _ _ _ _ _).1).trans ?_
      exact (gocs_frame _ _ _ _).1

/-- The transaction wrapper appends exactly one commit event on success
and leaves the trace unchanged on failure. -/
theorem txn_trace (env : Env) (lid : Nat) (page : Page) (n : Nat) (w : World)
    (map : List (Nat × Nat)) (jobs : List IAJob) :
    ((runSlideTxn env lid page n w map jobs).2.2.2 = .ok ()
      → (runSlideTxn env lid page n w map jobs).1.trace = w.trace ++ [.commit n])
    ∧ (∀ e, (runSlideTxn env lid page n w map jobs).2.2.2 = .error e
      → (runSlideTxn env lid page n w map jobs).1.trace = w.trace) := by
  unfold runSlideTxn
  dsimp only
  split
  · refine ⟨fun _ => ?_, fun e he => by simp at he⟩
    rw [(rsb_frame env lid page n w map jobs).1]
  · refine ⟨fun hc => by simp at hc, fun e he => ?_⟩
    exact (rsb_frame env lid page n w map jobs).1

/-- The slide loop only appends commit events to the trace. -/
theorem processSlides_trace (env : Env) (lid : Nat) :
    ∀ (pages : List Page) (n : Nat) (w : World) (map : List (Nat × Nat))
      (jobs : List IAJob),
      ∃ tr, (processSlides env lid pages n w map jobs).1.trace = w.trace ++ tr
        ∧ ∀ e ∈ tr, e.isCommit = true := by
  intro pages
  induction pages with
  | nil => intro n w map jobs; exact ⟨[], by simp [processSlides], by simp⟩
  | cons page rest ih =>
      intro n w map jobs
      unfold processSlides
      dsimp only
      split
      · case _ u heq =>
          obtain ⟨tr, htr, hall⟩ := ih (n + 1) _ _ _
          refine ⟨.commit n :: tr, ?_, ?_⟩
          · rw [htr, (txn_trace env lid page n w map jobs).1 ?_]
            · simp
            · cases u; exact heq
          · intro e he
            rcases List.mem_cons.mp he with rfl | h2
            · rfl
            · exact hall e h2
      · case _ e heq =>
          exact ⟨[], by simpa using (txn_trace env lid page n w map jobs).2 e heq, by simp⟩

/-- The explanation dispatch only appends explanation-publish events. -/
theorem dispatch_explanations_trace :
    ∀ (recs : List (Nat × Nat × Option String)) (w : World),
      ∃ tr, (dispatch_explanations w recs).trace = w.trace ++ tr
        ∧ ∀ e ∈ tr, ∃ sid m p, e = Event.pubExplanation sid m p := by
  intro recs
  induction recs with
  | nil => intro w; exact ⟨[], by simp [dispatch_explanations], by simp⟩
  | cons rec rest ih =>
      intro w
      rcases rec with ⟨sid, m, _ | path⟩
      · obtain ⟨tr, htr, hall⟩ := ih w
        refine ⟨tr, ?_, hall⟩
        simpa [dispatch_explanations, List.foldl_cons] using htr
      · obtain ⟨tr, htr, hall⟩ := ih { w with trace := w.trace ++ [.pubExplanation sid m path] }
        refine ⟨.pubExplanation sid m path :: tr, ?_, ?_⟩
        · simp only [dispatch_explanations, List.foldl_cons] at htr ⊢
          simpa using htr
        · intro e he
          rcases List.mem_cons.mp he with rfl | h2
          · exact ⟨sid, m, path, rfl⟩
          · exact hall e h2

/-- A publish event is not a commit event. -/
theorem isPublish_not_commit : ∀ e : Event, e.isPublish = true → e.isCommit = false := by
  intro e h
  cases e <;> simp_all [Event.isCommit, Event.isPublish]

/-- The tail dispatch only appends publish events. -/
theorem dispatch_tail_trace (w : World) (lid ts : Nat) (jobs : List IAJob) :
    ∃ tr, (dispatch_tail w lid ts jobs).trace = w.trace ++ tr
      ∧ ∀ e ∈ tr, e.isPublish = true := by
  unfold dispatch_tail
  split
  · refine ⟨jobs.map (fun j => .pubImageAnalysis j.slide_image_id j.image_hash), rfl, ?_⟩
    intro e he
    obtain ⟨j, _, rfl⟩ := List.mem_map.mp he
    rfl
  · exact ⟨[.pubEmbedding lid], rfl, by simp [Event.isPublish]⟩

/-- After the DSN guard and a successful connection, ingest_run is the
except/finally wrapper around ingest_core. -/
theorem ingest_run_match (env : Env) (st : Settings) (lid : Nat)
    (sp c nm em : String) (w : World)
    (hdsn : ¬st.postgres_dsn = "") (hconn : env.connectOk = true) :
    ingest_run env st lid sp c nm em w =
      (match (ingest_core env lid { w with s3Open := true, connOpen := true }).2 with
       | .ok _ =>
          (cleanup (ingest_core env lid { w with s3Open := true, connOpen := true }).1, .ok ())
       | .error e =>
          (cleanup (update_lecture_status
              (ingest_core env lid { w with s3Open := true, connOpen := true }).1
              lid .failed (some ⟨"ingestion", e.msg⟩)), .error e)) := by
  unfold ingest_run
  rw [if_neg hdsn]
  dsimp only
  rw [hconn]
  rfl

/-- When the lecture exists and the document opens, ingest_core is the
slide loop from the pre-loop state followed by the post-loop section. -/
theorem ingest_core_match (env : Env) (lid : Nat) (w : World) (doc : Doc)
    (hex : verify_lecture_exists w.db lid = true) (hpdf : env.pdf = some doc) :
    ingest_core env lid w =
      (match (processSlides env lid doc.pages 1 (preCore w lid doc.pages.length) [] []).2.2.2 with
       | .error e =>
          ((processSlides env lid doc.pages 1 (preCore w lid doc.pages.length) [] []).1, .error e)
       | .ok _ =>
          (postLoop (processSlides env lid doc.pages 1 (preCore w lid doc.pages.length) [] []).1
            lid
            (processSlides env lid doc.pages 1 (preCore w lid doc.pages.length) [] []).2.1.length
            (processSlides env lid doc.pages 1 (preCore w lid doc.pages.length) [] []).2.2.1,
           .ok ())) := by
  unfold ingest_core
  rw [hex, hpdf]
  rfl

/-- A successful run on an existing lecture decomposes as: pre-loop
state, a successful slide loop, the post-loop section, cleanup. -/
theorem ingest_run_ok_shape (env : Env) (st : Settings) (lid : Nat)
    (sp c nm em : String) (w : World)
    (hres : (ingest_run env st lid sp c nm em w).2 = .ok ())
    (hex : verify_lecture_exists w.db lid = true) :
    ∃ doc r, env.pdf = some doc
      ∧ processSlides env lid doc.pages 1
          (preCore { w with s3Open := true, connOpen := true } lid doc.pages.length) [] [] = r
      ∧ r.2.2.2 = .ok ()
      ∧ (ingest_run env st lid sp c nm em w).1
          = cleanup (postLoop r.1 lid r.2.1.length r.2.2.1) := by
  by_cases hdsn : st.postgres_dsn = ""
  · exfalso; simp [ingest_run, hdsn] at hres
  cases hconn : env.connectOk
  · exfalso; simp [ingest_run, hdsn, hconn] at hres
  cases hpdf : env.pdf with
  | none =>
      exfalso
      rw [ingest_run_match env st lid sp c nm em w hdsn hconn] at hres
      unfold ingest_core at hres
      rw [hpdf] at hres
      simp [hex] at hres
  | some doc =>
      have hex2 : verify_lecture_exists
          ({ w with s3Open := true, connOpen := true } : World).db lid = true := hex
      rw [ingest_run_match env st lid sp c nm em w hdsn hconn] at hres ⊢
      rw [ingest_core_match env lid { w with s3Open := true, connOpen := true } doc hex2 hpdf]
        at hres ⊢
      cases hps : (processSlides env lid doc.pages 1
          (preCore { w with s3Open := true, connOpen := true } lid doc.pages.length)
          [] []).2.2.2 with
      | error e => rw [hps] at hres; simp at hres
      | ok u =>
          cases u
          refine ⟨doc, processSlides env lid doc.pages 1
              (preCore { w with s3Open := true, connOpen := true } lid doc.pages.length) [] [],
            rfl, rfl, hps, ?_⟩
          dsimp only

/-- C1: in every run that reaches the job-dispatch phase, the trace
splits around the single explaining status write: no job of any kind is
published before it, and no slide transaction commits after it. -/
theorem C1_explaining_after_commits_before_publishes (env : Env) (st : Settings)
    (lid : Nat) (sp c nm em : String) (w : World)
    (hres : (ingest_run env st lid sp c nm em w).2 = .ok ())
    (hex : verify_lecture_exists w.db lid = true) :
    ∃ pre post,
      (ingest_run env st lid sp c nm em w).1.trace
        = w.trace ++ pre ++ [Event.statusWrite .explaining] ++ post
      ∧ (∀ e ∈ pre, e.isPublish = false)
      ∧ (∀ e ∈ post, e.isCommit = false) := by
  obtain ⟨doc, r, hpdf, hr, hok, heq⟩ := ingest_run_ok_shape env st lid sp c nm em w hres hex
  obtain ⟨trC, htrC, hcom⟩ := processSlides_trace env lid doc.pages 1
    (preCore { w with s3Open := true, connOpen := true } lid doc.pages.length) [] []
  rw [hr] at htrC
  have h1 : (preCore { w with s3Open := true, connOpen := true } lid doc.pages.length).trace
      = w.trace ++ [Event.statusWrite .parsing] := by
    simp [preCore, set_lecture_parsing]
  rw [h1] at htrC
  obtain ⟨trE, htrE, hexp⟩ := dispatch_explanations_trace
    (get_slides_with_images_for_lecture
      (update_lecture_status (update_lecture_sub_image_count r.1 lid r.2.1.length)
        lid .explaining none).db lid)
    (update_lecture_status (update_lecture_sub_image_count r.1 lid r.2.1.length)
      lid .explaining none)
  obtain ⟨trT, htrT, hpub⟩ := dispatch_tail_trace
    (dispatch_explanations
      (update_lecture_status (update_lecture_sub_image_count r.1 lid r.2.1.length)
        lid .explaining none)
      (get_slides_with_images_for_lecture
        (update_lecture_status (update_lecture_sub_image_count r.1 lid r.2.1.length)
          lid .explaining none).db lid))
    lid r.2.1.length r.2.2.1
  refine ⟨Event.statusWrite .parsing :: trC, trE ++ trT, ?_, ?_, ?_⟩
  · rw [heq]
    show (postLoop r.1 lid r.2.1.length r.2.2.1).trace = _
    unfold postLoop
    dsimp only
    rw [htrT, htrE]
    have h2 : (update_lecture_status (update_lecture_sub_image_count r.1 lid r.2.1.length)
        lid .explaining none).trace = r.1.trace ++ [Event.statusWrite .explaining] := by
      simp [update_lecture_status, update_lecture_sub_image_count]
    rw [h2, htrC]
    simp [List.append_assoc]
  · intro e he
    rcases List.mem_cons.mp he with rfl | h2
    · rfl
    · exact isCommit_not_publish e (hcom e h2)
  · intro e he
    rcases List.mem_append.mp he with h2 | h2
    · obtain ⟨sid, m, p, rfl⟩ := hexp e h2
      rfl
    · exact isPublish_not_commit e (hpub e h2)

/-- Witness for C1 on a concrete successful run with images. -/
theorem C1_explaining_after_commits_before_publishes_witness :
    ∃ pre post,
      (ingest_run sampleEnvDup sampleSettings 1 "p" "c" "n" "e" sampleWorld).1.trace
        = sampleWorld.trace ++ pre ++ [Event.statusWrite .explaining] ++ post
      ∧ (∀ e ∈ pre, e.isPublish = false)
      ∧ (∀ e ∈ post, e.isCommit = false) :=
  C1_explaining_after_commits_before_publishes sampleEnvDup sampleSettings 1
    "p" "c" "n" "e" sampleWorld rfl rfl

/-- Looking up in a map extended by one binding. -/
theorem lookupHash_append (map : List (Nat × Nat)) (k v h : Nat) :
    lookupHash (map ++ [(k, v)]) h
      = match lookupHash map h with
        | some x => some x
        | none => if k = h then some v else none := by
  induction map with
  | nil => simp [lookupHash]
  | cons kv rest ih =>
      cases kv with
      | mk a b =>
          by_cases ha : a = h
          · simp [lookupHash, ha]
          · simp [lookupHash, ha, ih]

/-- get_or_create_slide always leaves a slide row keyed by the lecture
and slide number. -/
theorem gocs_mem (db : DB) (lid n : Nat) (raw : String) :
    ∃ s ∈ (get_or_create_slide db lid n raw).1.slides,
      s.lecture_id = lid ∧ s.slide_number = n := by
  rcases hf : findSlide db lid n with _ | s
  · refine ⟨⟨db.nextId, lid, n, raw⟩, ?_, rfl, rfl⟩
    simp [get_or_create_slide, hf]
  · have hm : s ∈ db.slides := List.mem_of_find?_eq_some hf
    have hp := List.find?_some hf
    simp only [Bool.and_eq_true, beq_iff_eq] at hp
    exact ⟨s, by simp [get_or_create_slide, hf, hm], hp.1, hp.2⟩

/-- get_or_create_chunk always leaves a chunk row keyed by slide id and
chunk index. -/
theorem chunk_step_mem (db : DB) (sid lid n idx : Nat) (t : String) (tc : Nat) :
    ∃ ch ∈ (get_or_create_chunk db sid lid n idx t tc).chunks,
      ch.slide_id = sid ∧ ch.chunk_index = idx := by
  unfold get_or_create_chunk
  split
  · rename_i hany
    obtain ⟨ch, hm, hp⟩ := List.any_eq_true.mp hany
    simp only [Bool.and_eq_true, beq_iff_eq] at hp
    exact ⟨ch, hm, hp.1, hp.2⟩
  · exact ⟨⟨sid, lid, n, idx, t, tc⟩, by simp, rfl, rfl⟩

/-- The chunk-insertion fold never removes chunk rows. -/
theorem chunkFold_mono :
    ∀ (l : List (Nat × String × Nat)) (db : DB) (sid lid n : Nat) (c : ChunkRow),
      c ∈ db.chunks →
      c ∈ (l.foldl (fun d p => get_or_create_chunk d sid lid n p.1 p.2.1 p.2.2) db).chunks := by
  intro l
  induction l with
  | nil => intro db sid lid n c hc; exact hc
  | cons p rest ih =>
      intro db sid lid n c hc
      simp only [List.foldl_cons]
      refine ih _ sid lid n c ?_
      unfold get_or_create_chunk
      split
      · exact hc
      · simp [hc]

/-- After the chunk-insertion fold, every listed index has its row. -/
theorem chunkFold_mem :
    ∀ (l : List (Nat × String × Nat)) (db : DB) (sid lid n : Nat),
      ∀ p ∈ l,
        ∃ ch ∈ (l.foldl (fun d p => get_or_create_chunk d sid lid n p.1 p.2.1 p.2.2) db).chunks,
          ch.slide_id = sid ∧ ch.chunk_index = p.1 := by
  intro l
  induction l with
  | nil => intro db sid lid n p hp; simp at hp
  | cons q rest ih =>
      intro db sid lid n p hp
      simp only [List.foldl_cons]
      rcases List.mem_cons.mp hp with rfl | h2
      · obtain ⟨ch, hm, h1, h2⟩ := chunk_step_mem db sid lid n p.1 p.2.1 p.2.2
        exact ⟨ch, chunkFold_mono rest _ sid lid n ch hm, h1, h2⟩
      · exact ih _ sid lid n p h2

/-- The sub-image resolver never removes SlideImage rows. -/
theorem psi_images_mono :
    ∀ (imgs : List Img) (w : World) (lid sid : Nat) (map : List (Nat × Nat))
      (jobs : List IAJob) (r : SlideImageRow),
      r ∈ w.db.slide_images →
      r ∈ (process_slide_sub_images w lid sid imgs map jobs).1.db.slide_images := by
  intro imgs
  induction imgs with
  | nil => intro w lid sid map jobs r hr; exact hr
  | cons b rest ih =>
      intro w lid sid map jobs r hr
      unfold process_slide_sub_images
      dsimp only
      split
      · exact ih w lid sid map jobs r hr
      · exact ih _ lid sid _ _ r (by simp [hr])

/-- The sub-image resolver leaves a content row for every image whose
hash was not yet in the run map. -/
theorem psi_content_mem :
    ∀ (imgs : List Img) (w : World) (lid sid : Nat) (map : List (Nat × Nat))
      (jobs : List IAJob),
      ∀ b ∈ imgs, lookupHash map (imageHash b) = none →
        ∃ im ∈ (process_slide_sub_images w lid sid imgs map jobs).1.db.slide_images,
          im.slide_id = sid ∧ im.type = ImgType.content ∧ im.image_hash = imageHash b := by
  intro imgs
  induction imgs with
  | nil => intro w lid sid map jobs b hb; simp at hb
  | cons bq rest ih =>
      intro w lid sid map jobs b hb hnone
      rcases List.mem_cons.mp hb with rfl | h2
      · unfold process_slide_sub_images
        dsimp only
        split
        · rename_i v hv
          rw [hnone] at hv; cases hv
        · refine ⟨⟨w.db.nextId, sid, lid, .content, (S3Key.contentKey lid (imageHash b)).render,
            imageHash b⟩, ?_, rfl, rfl, rfl⟩
          exact psi_images_mono rest _ lid sid _ _ _ (by simp)
      · unfold process_slide_sub_images
        dsimp only
        split
        · exact ih w lid sid map jobs b h2 hnone
        · rename_i hv
          by_cases hh : imageHash bq = imageHash b
          · refine ⟨⟨w.db.nextId, sid, lid, .content,
              (S3Key.contentKey lid (imageHash bq)).render, imageHash bq⟩, ?_, rfl, rfl, hh⟩
            exact psi_images_mono rest _ lid sid _ _ _ (by simp)
          · refine ih _ lid sid _ _ b h2 ?_
            rw [lookupHash_append, hnone]
            simp [hh]

/-- The slide rows after the transaction body are those left by
get_or_create_slide. -/
theorem rsb_slides (env : Env) (lid : Nat) (page : Page) (n : Nat) (w : World)
    (map : List (Nat × Nat)) (jobs : List IAJob) :
    (runSlideBody env lid page n w map jobs).1.db.slides
      = (get_or_create_slide w.db lid n page.text).1.slides := by
  unfold runSlideBody
  dsimp only
  split <;> exact ((psi_frame _ _ _ _ _ _).2.1).trans ((insertChunks_frame _ _ _ _ _).2.1)

/-- The chunk rows after the transaction body are those left by
insertChunks. -/
theorem rsb_chunks (env : Env) (lid : Nat) (page : Page) (n : Nat) (w : World)
    (map : List (Nat × Nat)) (jobs : List IAJob) :
    (runSlideBody env lid page n w map jobs).1.db.chunks
      = (insertChunks (get_or_create_slide w.db lid n page.text).1
          (get_or_create_slide w.db lid n page.text).2 lid n
          (chunk_text_by_tokens page.text)).chunks := by
  unfold runSlideBody
  dsimp only
  split <;> exact (psi_frame _ _ _ _ _ _).2.2.1

/-- The transaction body always inserts the full SlideImage row for the
slide. -/
theorem rsb_fullimage (env : Env) (lid : Nat) (page : Page) (n : Nat) (w : World)
    (map : List (Nat × Nat)) (jobs : List IAJob) :
    ∃ im ∈ (runSlideBody env lid page n w map jobs).1.db.slide_images,
      im.slide_id = (get_or_create_slide w.db lid n page.text).2
      ∧ im.type = ImgType.full := by
  unfold runSlideBody
  dsimp only
  split <;>
  · refine ⟨⟨(insertChunks (get_or_create_slide w.db lid n page.text).1
        (get_or_create_slide w.db lid n page.text).2 lid n
        (chunk_text_by_tokens page.text)).nextId,
      (get_or_create_slide w.db lid n page.text).2, lid, .full,
      (S3Key.slideKey lid n).render, imageHash page.render⟩, ?_, rfl, rfl⟩
    refine psi_images_mono _ _ _ _ _ _ _ ?_
    simp [render_and_upload_slide_image]

/-- The transaction body resolves every not-yet-seen sub-image into a
content row for this slide. -/
theorem rsb_contentimage (env : Env) (lid : Nat) (page : Page) (n : Nat) (w : World)
    (map : List (Nat × Nat)) (jobs : List IAJob) :
    ∀ b ∈ page.sub_images, lookupHash map (imageHash b) = none →
      ∃ im ∈ (runSlideBody env lid page n w map jobs).1.db.slide_images,
        im.slide_id = (get_or_create_slide w.db lid n page.text).2
        ∧ im.type = ImgType.content ∧ im.image_hash = imageHash b := by
  intro b hb hnone
  unfold runSlideBody
  dsimp only
  split <;> exact psi_content_mem _ _ _ _ _ _ b hb hnone

/-- C6: per-slide atomicity. On any failure inside the slide's
transaction, the database reverts to its pre-transaction state (all of
the slide's writes are discarded); on success, the slide row, a chunk
row for every chunker output, the full SlideImage row and the content
SlideImage rows for newly resolved images are all present. -/
theorem C6_slide_transaction_atomic (env : Env) (lid : Nat) (page : Page) (n : Nat) (w : World)
    (map : List (Nat × Nat)) (jobs : List IAJob) :
    (∀ e, (runSlideTxn env lid page n w map jobs).2.2.2 = .error e
        → (runSlideTxn env lid page n w map jobs).1.db = w.db)
    ∧ ((runSlideTxn env lid page n w map jobs).2.2.2 = .ok ()
        → (∃ s ∈ (runSlideTxn env lid page n w map jobs).1.db.slides,
              s.lecture_id = lid ∧ s.slide_number = n)
          ∧ (∀ p ∈ (chunk_text_by_tokens page.text).enum,
              ∃ ch ∈ (runSlideTxn env lid page n w map jobs).1.db.chunks,
                ch.slide_id = (get_or_create_slide w.db lid n page.text).2
                ∧ ch.chunk_index = p.1)
          ∧ (∃ im ∈ (runSlideTxn env lid page n w map jobs).1.db.slide_images,
              im.slide_id = (get_or_create_slide w.db lid n page.text).2
              ∧ im.type = ImgType.full)
          ∧ (∀ b ∈ page.sub_images, lookupHash map (imageHash b) = none →
              ∃ im ∈ (runSlideTxn env lid page n w map jobs).1.db.slide_images,
                im.slide_id = (get_or_create_slide w.db lid n page.text).2
                ∧ im.type = ImgType.content ∧ im.image_hash = imageHash b)) := by
  unfold runSlideTxn
  dsimp only
  split
  · refine ⟨fun e he => by simp at he, fun _ => ?_⟩
    refine ⟨?_, ?_, ?_, ?_⟩
    · dsimp only
      rw [rsb_slides]
      exact gocs_mem w.db lid n page.text
    · intro p hp
      dsimp only
      rw [rsb_chunks]
      exact chunkFold_mem (chunk_text_by_tokens page.text).enum
        (get_or_create_slide w.db lid n page.text).1
        (get_or_create_slide w.db lid n page.text).2 lid n p hp
    · dsimp only
      exact rsb_fullimage env lid page n w map jobs
    · intro b hb hnone
      dsimp only
      exact rsb_contentimage env lid page n w map jobs b hb hnone
  · refine ⟨fun e2 he2 => rfl, fun hok => by simp at hok⟩

/-- Witness for C6: a concrete failing transaction discards its writes,
and a concrete successful one persists the slide row. -/
theorem C6_slide_transaction_atomic_witness :
    (runSlideTxn ⟨true, none, fun _ => true⟩ 1 ⟨"a b", 7, [5]⟩ 1 sampleWorld [] []).1.db
        = sampleWorld.db
    ∧ (∃ s ∈ (runSlideTxn sampleEnvNoImg 1 ⟨"a b", 7, [5]⟩ 1 sampleWorld [] []).1.db.slides,
        s.lecture_id = 1 ∧ s.slide_number = 1) :=
  ⟨(C6_slide_transaction_atomic ⟨true, none, fun _ => true⟩ 1 ⟨"a b", 7, [5]⟩ 1
      sampleWorld [] []).1 (Err.persistError 1) rfl,
   ((C6_slide_transaction_atomic sampleEnvNoImg 1 ⟨"a b", 7, [5]⟩ 1
      sampleWorld [] []).2 rfl).1⟩



/-- With the fault injected at slide n, the transaction raises the
persistence error and the database reverts. -/
theorem txn_fault (env : Env) (lid : Nat) (page : Page) (n : Nat) (w : World)
    (map : List (Nat × Nat)) (jobs : List IAJob) (hf : env.slideFault n = true) :
    (runSlideTxn env lid page n w map jobs).2.2.2 = .error (.persistError n)
    ∧ (runSlideTxn env lid page n w map jobs).1.db = w.db := by
  unfold runSlideTxn runSlideBody
  dsimp only
  rw [hf]
  exact ⟨rfl, rfl⟩

/-- Without an injected fault the slide transaction commits. -/
theorem txn_ok_of_nofault (env : Env) (lid : Nat) (page : Page) (n : Nat) (w : World)
    (map : List (Nat × Nat)) (jobs : List IAJob) (hf : env.slideFault n = false) :
    (runSlideTxn env lid page n w map jobs).2.2.2 = .ok () := by
  unfold runSlideTxn runSlideBody
  dsimp only
  rw [hf]
  rfl

/-- The slide transaction never touches the lecture rows. -/
theorem txn_lectures (env : Env) (lid : Nat) (page : Page) (n : Nat) (w : World)
    (map : List (Nat × Nat)) (jobs : List IAJob) :
    (runSlideTxn env lid page n w map jobs).1.db.lectures = w.db.lectures := by
  unfold runSlideTxn
  dsimp only
  split
  · exact (rsb_frame env lid page n w map jobs).2
  · rfl

/-- A slide transaction either commits, leaving the slide rows of
get_or_create_slide, or fails, reverting the database. -/
theorem txn_cases (env : Env) (lid : Nat) (page : Page) (n : Nat) (w : World)
    (map : List (Nat × Nat)) (jobs : List IAJob) :
    ((runSlideTxn env lid page n w map jobs).2.2.2 = .ok ()
      ∧ (runSlideTxn env lid page n w map jobs).1.db.slides
          = (get_or_create_slide w.db lid n page.text).1.slides)
    ∨ ((∃ e, (runSlideTxn env lid page n w map jobs).2.2.2 = .error e)
      ∧ (runSlideTxn env lid page n w map jobs).1.db = w.db) := by
  unfold runSlideTxn
  dsimp only
  split
  · exact Or.inl ⟨rfl, rsb_slides env lid page n w map jobs⟩
  · exact Or.inr ⟨⟨_, rfl⟩, rfl⟩

/-- get_or_create_slide never removes slide rows. -/
theorem gocs_slides_mono (db : DB) (lid n : Nat) (raw : String) :
    ∀ s ∈ db.slides, s ∈ (get_or_create_slide db lid n raw).1.slides := by
  intro s hs
  rcases hf : findSlide db lid n with _ | t <;> simp [get_or_create_slide, hf, hs]

/-- get_or_create_slide adds at most the row keyed by this lecture and
slide number. -/
theorem gocs_slides_sub (db : DB) (lid n : Nat) (raw : String) :
    ∀ s ∈ (get_or_create_slide db lid n raw).1.slides,
      s ∈ db.slides ∨ (s.lecture_id = lid ∧ s.slide_number = n) := by
  intro s hs
  rcases hf : findSlide db lid n with _ | t
  · simp [get_or_create_slide, hf] at hs
    rcases hs with hs | hs
    · exact Or.inl hs
    · subst hs; exact Or.inr ⟨rfl, rfl⟩
  · simp [get_or_create_slide, hf] at hs
    exact Or.inl hs

/-- The slide loop never removes slide rows: committed slides of
earlier iterations survive later failures. -/
theorem processSlides_slides_mono (env : Env) (lid : Nat) :
    ∀ (pages : List Page) (n : Nat) (w : World) (map : List (Nat × Nat))
      (jobs : List IAJob) (s : SlideRow), s ∈ w.db.slides →
      s ∈ (processSlides env lid pages n w map jobs).1.db.slides := by
  intro pages
  induction pages with
  | nil => intro n w map jobs s hs; exact hs
  | cons page rest ih =>
      intro n w map jobs s hs
      unfold processSlides
      dsimp only
      have hstep : s ∈ (runSlideTxn env lid page n w map jobs).1.db.slides := by
        rcases txn_cases env lid page n w map jobs with ⟨_, hsl⟩ | ⟨_, hdb⟩
        · rw [hsl]; exact gocs_slides_mono w.db lid n page.text s hs
        · rw [hdb]; exact hs
      split
      · exact ih (n + 1) _ _ _ s hstep
      · exact hstep

/-- The slide loop never touches the lecture rows. -/
theorem processSlides_lectures (env : Env) (lid : Nat) :
    ∀ (pages : List Page) (n : Nat) (w : World) (map : List (Nat × Nat))
      (jobs : List IAJob),
      (processSlides env lid pages n w map jobs).1.db.lectures = w.db.lectures := by
  intro pages
  induction pages with
  | nil => intro n w map jobs; rfl
  | cons page rest ih =>
      intro n w map jobs
      unfold processSlides
      dsimp only
      split
      · exact (ih (n + 1) _ _ _).trans (txn_lectures env lid page n w map jobs)
      · exact txn_lectures env lid page n w map jobs

/-- With the first injected fault at offset j, the slide loop stops
there with the persistence error, the slides before the faulting one are
all committed, and no slide from the faulting one on exists. -/
theorem processSlides_fault (env : Env) (lid : Nat) :
    ∀ (pages : List Page) (j n : Nat) (w : World) (map : List (Nat × Nat))
      (jobs : List IAJob),
      j < pages.length →
      env.slideFault (n + j) = true →
      (∀ i, i < j → env.slideFault (n + i) = false) →
      (∀ s ∈ w.db.slides, s.lecture_id = lid → s.slide_number < n) →
      ((processSlides env lid pages n w map jobs).2.2.2
          = .error (.persistError (n + j))
       ∧ (∀ m, n ≤ m → m < n + j →
           ∃ s ∈ (processSlides env lid pages n w map jobs).1.db.slides,
             s.lecture_id = lid ∧ s.slide_number = m)
       ∧ (∀ s ∈ (processSlides env lid pages n w map jobs).1.db.slides,
           s.lecture_id = lid → s.slide_number < n + j)) := by
  intro pages
  induction pages with
  | nil => intro j n w map jobs hj; simp at hj
  | cons page rest ih =>
      intro j n w map jobs hj hfault hok hw
      cases j with
      | zero =>
          have hf : env.slideFault n = true := by simpa using hfault
          obtain ⟨herr, hdb⟩ := txn_fault env lid page n w map jobs hf
          unfold processSlides
          dsimp only
          split
          · rename_i u heq
            rw [herr] at heq; cases heq
          · refine ⟨by simpa using herr, ?_, ?_⟩
            · intro m hm1 hm2; omega
            · intro s hs hsl
              rw [hdb] at hs
              have := hw s hs hsl
              omega
      | succ jp =>
          have hf : env.slideFault n = false := by
            have := hok 0 (by omega)
            simpa using this
          have hoktxn := txn_ok_of_nofault env lid page n w map jobs hf
          unfold processSlides
          dsimp only
          split
          · rename_i u heq
            have hslides : (runSlideTxn env lid page n w map jobs).1.db.slides
                = (get_or_create_slide w.db lid n page.text).1.slides := by
              rcases txn_cases env lid page n w map jobs with ⟨_, hsl⟩ | ⟨⟨e, he⟩, _⟩
              · exact hsl
              · rw [he] at hoktxn; cases hoktxn
            have hw2 : ∀ s ∈ (runSlideTxn env lid page n w map jobs).1.db.slides,
                s.lecture_id = lid → s.slide_number < n + 1 := by
              intro s hs hsl
              rw [hslides] at hs
              rcases gocs_slides_sub w.db lid n page.text s hs with hold | ⟨_, hnum⟩
              · have := hw s hold hsl
                omega
              · omega
            have harg1 : jp < rest.length := by
              simp only [List.length_cons] at hj
              omega
            have harg2 : env.slideFault (n + 1 + jp) = true := by
              have : n + 1 + jp = n + (jp + 1) := by omega
              rw [this]; exact hfault
            have harg3 : ∀ i, i < jp → env.slideFault (n + 1 + i) = false := by
              intro i hi
              have : n + 1 + i = n + (i + 1) := by omega
              rw [this]; exact hok (i + 1) (by omega)
            obtain ⟨ih1, ih2, ih3⟩ := ih jp (n + 1) _ _ _ harg1 harg2 harg3 hw2
            refine ⟨?_, ?_, ?_⟩
            · rw [ih1]
              have : n + 1 + jp = n + (jp + 1) := by omega
              rw [this]
            · intro m hm1 hm2
              by_cases hmn : m = n
              · subst hmn
                obtain ⟨s, hs, h1, h2⟩ := gocs_mem w.db lid m page.text
                refine ⟨s, ?_, h1, h2⟩
                refine processSlides_slides_mono env lid rest (m + 1) _ _ _ s ?_
                rw [hslides]
                exact hs
              · exact ih2 m (by omega) (by omega)
            · intro s hs hsl
              have := ih3 s hs hsl
              omega
          · rename_i e heq
            rw [hoktxn] at heq; cases heq


/-- A verified lecture id has a lecture row. -/
theorem verify_exists_mem (db : DB) (lid : Nat) (h : verify_lecture_exists db lid = true) :
    ∃ L ∈ db.lectures, L.id = lid := by
  unfold verify_lecture_exists lectureById at h
  rcases hf : db.lectures.find? (fun r => r.id == lid) with _ | L
  · rw [hf] at h; simp at h
  · have hm := List.mem_of_find?_eq_some hf
    have hp := List.find?_some hf
    simp only [beq_iff_eq] at hp
    exact ⟨L, hm, hp⟩

/-- An id-preserving lecture update keeps a row with the id. -/
theorem updateLecture_exists_id (db : DB) (lid : Nat) (f : LectureRow → LectureRow)
    (hid : ∀ r, (f r).id = r.id) (h : ∃ L ∈ db.lectures, L.id = lid) :
    ∃ L ∈ (updateLecture db lid f).lectures, L.id = lid := by
  obtain ⟨L, hm, hL⟩ := h
  unfold updateLecture
  refine ⟨if L.id == lid then f L else L, List.mem_map_of_mem _ hm, ?_⟩
  simp [hL, hid]

/-- A status write with error details leaves a row with the id carrying
that status and those details. -/
theorem update_status_failed_mem (w : World) (lid : Nat) (s0 : Status) (d : ErrorInfo)
    (h : ∃ L ∈ w.db.lectures, L.id = lid) :
    ∃ L ∈ (update_lecture_status w lid s0 (some d)).db.lectures,
      L.id = lid ∧ L.status = s0 ∧ L.search_error_details = some d := by
  obtain ⟨L, hm, hL⟩ := h
  unfold update_lecture_status updateLecture
  dsimp only
  refine ⟨_, List.mem_map_of_mem _ hm, ?_⟩
  simp [hL]

/-- A run whose slide loop fails marks the lecture failed with the
ingestion error record and re-raises the loop error. -/
theorem ingest_run_err_shape (env : Env) (st : Settings) (lid : Nat)
    (sp c nm em : String) (w : World) (doc : Doc) (e : Err)
    (hdsn : ¬st.postgres_dsn = "") (hconn : env.connectOk = true)
    (hex : verify_lecture_exists w.db lid = true)
    (hpdf : env.pdf = some doc)
    (hps : (processSlides env lid doc.pages 1
        (preCore { w with s3Open := true, connOpen := true } lid doc.pages.length) [] []).2.2.2
        = .error e) :
    (ingest_run env st lid sp c nm em w).2 = .error e
    ∧ (ingest_run env st lid sp c nm em w).1
        = cleanup (update_lecture_status
            (processSlides env lid doc.pages 1
              (preCore { w with s3Open := true, connOpen := true } lid doc.pages.length) [] []).1
            lid .failed (some ⟨"ingestion", e.msg⟩)) := by
  have hex2 : verify_lecture_exists
      ({ w with s3Open := true, connOpen := true } : World).db lid = true := hex
  rw [ingest_run_match env st lid sp c nm em w hdsn hconn,
      ingest_core_match env lid { w with s3Open := true, connOpen := true } doc hex2 hpdf,
      hps]
  exact ⟨rfl, rfl⟩

/-- C3: if slide persistence raises on slide K after slides 1..K-1
committed, the run re-raises that exact error, the earlier slides'
rows remain committed, no slide from K on exists, and the lecture is
marked failed with an error-details record whose service is
ingestion. -/
theorem C3_partial_failure_semantics (env : Env) (st : Settings) (lid : Nat) (sp c nm em : String)
    (w : World) (doc : Doc) (K : Nat)
    (hdsn : ¬st.postgres_dsn = "") (hconn : env.connectOk = true)
    (hex : verify_lecture_exists w.db lid = true)
    (hpdf : env.pdf = some doc)
    (hK1 : 1 ≤ K) (hK2 : K ≤ doc.pages.length)
    (hfault : env.slideFault K = true)
    (hbefore : ∀ i, i < K → env.slideFault i = false)
    (hfresh : ∀ s ∈ w.db.slides, s.lecture_id ≠ lid) :
    (ingest_run env st lid sp c nm em w).2 = .error (.persistError K)
    ∧ (∀ m, 1 ≤ m → m < K →
        ∃ s ∈ (ingest_run env st lid sp c nm em w).1.db.slides,
          s.lecture_id = lid ∧ s.slide_number = m)
    ∧ (∀ s ∈ (ingest_run env st lid sp c nm em w).1.db.slides,
        s.lecture_id = lid → s.slide_number < K)
    ∧ (∃ L ∈ (ingest_run env st lid sp c nm em w).1.db.lectures,
        L.id = lid ∧ L.status = .failed
        ∧ ∃ d, L.search_error_details = some d ∧ d.service = "ingestion") := by
  have h1k : 1 + (K - 1) = K := by omega
  have hwbound : ∀ s ∈ (preCore { w with s3Open := true, connOpen := true }
      lid doc.pages.length).db.slides, s.lecture_id = lid → s.slide_number < 1 := by
    intro s hs hl
    exact absurd hl (hfresh s hs)
  obtain ⟨herr, hmid, hbound⟩ := processSlides_fault env lid doc.pages (K - 1) 1
    (preCore { w with s3Open := true, connOpen := true } lid doc.pages.length) [] []
    (by omega) (by rw [h1k]; exact hfault)
    (fun i hi => hbefore (1 + i) (by omega)) hwbound
  rw [h1k] at herr hmid hbound
  obtain ⟨hres2, hstate⟩ := ingest_run_err_shape env st lid sp c nm em w doc
    (.persistError K) hdsn hconn hex hpdf herr
  refine ⟨hres2, ?_, ?_, ?_⟩
  · intro m hm1 hm2
    rw [hstate]
    exact hmid m hm1 hm2
  · intro s hs hsl
    rw [hstate] at hs
    exact hbound s hs hsl
  · have hL0 : ∃ L ∈ w.db.lectures, L.id = lid := verify_exists_mem w.db lid hex
    have hL1 : ∃ L ∈ (clear_error_details w.db lid).lectures, L.id = lid :=
      updateLecture_exists_id w.db lid _ (fun r => rfl) hL0
    have hL2 : ∃ L ∈ (preCore { w with s3Open := true, connOpen := true }
        lid doc.pages.length).db.lectures, L.id = lid :=
      updateLecture_exists_id (clear_error_details w.db lid) lid _ (fun r => rfl) hL1
    have hL3 : ∃ L ∈ (processSlides env lid doc.pages 1
        (preCore { w with s3Open := true, connOpen := true } lid doc.pages.length)
        [] []).1.db.lectures, L.id = lid := by
      rw [processSlides_lectures]
      exact hL2
    obtain ⟨L, hm, hid2, hst, hdet⟩ := update_status_failed_mem _ lid .failed
      ⟨"ingestion", (Err.persistError K).msg⟩ hL3
    rw [hstate]
    exact ⟨L, hm, hid2, hst, ⟨"ingestion", (Err.persistError K).msg⟩, hdet, rfl⟩

/-- Witness for C3: slide 2 of 3 fails; slide 1 stays committed, the
lecture is failed with the ingestion error record, and the exception
propagates. -/
theorem C3_partial_failure_semantics_witness :
    (ingest_run sampleEnvFault2 sampleSettings 1 "p" "c" "n" "e" sampleWorld).2
        = .error (.persistError 2)
    ∧ (∀ m, 1 ≤ m → m < 2 →
        ∃ s ∈ (ingest_run sampleEnvFault2 sampleSettings 1 "p" "c" "n" "e" sampleWorld).1.db.slides,
          s.lecture_id = 1 ∧ s.slide_number = m)
    ∧ (∀ s ∈ (ingest_run sampleEnvFault2 sampleSettings 1 "p" "c" "n" "e" sampleWorld).1.db.slides,
        s.lecture_id = 1 → s.slide_number < 2)
    ∧ (∃ L ∈ (ingest_run sampleEnvFault2 sampleSettings 1 "p" "c" "n" "e" sampleWorld).1.db.lectures,
        L.id = 1 ∧ L.status = .failed
        ∧ ∃ d, L.search_error_details = some d ∧ d.service = "ingestion") :=
  C3_partial_failure_semantics sampleEnvFault2 sampleSettings 1 "p" "c" "n" "e"
    sampleWorld sampleDocThree 2 (by decide) rfl rfl rfl (by decide) (by decide) rfl
    (by decide) (by intro s hs; simp [sampleWorld] at hs)



/-- Membership after adding a hash to the accumulator. -/
theorem mem_addHash (acc : List Nat) (k h : Nat) :
    h ∈ addHash acc k ↔ h ∈ acc ∨ h = k := by
  unfold addHash
  split
  · rename_i hk
    constructor
    · exact Or.inl
    · rintro (hh | rfl)
      · exact hh
      · exact hk
  · simp

/-- addHash preserves distinctness. -/
theorem addHash_nodup (acc : List Nat) (k : Nat) (h : acc.Nodup) :
    (addHash acc k).Nodup := by
  unfold addHash
  split
  · exact h
  · rename_i hk
    simp [List.nodup_append, h, hk]

/-- A hash is in the first-occurrence list exactly when it was carried
in or occurs in the images. -/
theorem firstOccs_mem :
    ∀ (l : List Img) (acc : List Nat) (h : Nat),
      h ∈ firstOccs acc l ↔ h ∈ acc ∨ h ∈ l.map imageHash := by
  intro l
  induction l with
  | nil => intro acc h; simp [firstOccs]
  | cons b rest ih =>
      intro acc h
      simp only [firstOccs, List.foldl_cons] at ih ⊢
      rw [ih (addHash acc (imageHash b)) h, mem_addHash]
      simp [or_assoc]

/-- The first-occurrence list is duplicate-free. -/
theorem firstOccs_nodup :
    ∀ (l : List Img) (acc : List Nat), acc.Nodup → (firstOccs acc l).Nodup := by
  intro l
  induction l with
  | nil => intro acc h; exact h
  | cons b rest ih =>
      intro acc h
      simp only [firstOccs, List.foldl_cons] at ih ⊢
      exact ih _ (addHash_nodup acc _ h)

/-- First occurrences over a concatenation. -/
theorem firstOccs_append (acc : List Nat) (l1 l2 : List Img) :
    firstOccs acc (l1 ++ l2) = firstOccs (firstOccs acc l1) l2 := by
  simp [firstOccs, List.foldl_append]

/-- Images of a page list, unfolded one page. -/
theorem pagesImgs_cons (page : Page) (rest : List Page) :
    pagesImgs (page :: rest) = page.sub_images ++ pagesImgs rest := by
  simp [pagesImgs]

/-- After resolving a list of images, the map keys are exactly the
first occurrences of their hashes continuing the incoming keys. -/
theorem psi_keys :
    ∀ (imgs : List Img) (w : World) (lid sid : Nat) (map : List (Nat × Nat))
      (jobs : List IAJob),
      (process_slide_sub_images w lid sid imgs map jobs).2.1.map Prod.fst
        = firstOccs (map.map Prod.fst) imgs := by
  intro imgs
  induction imgs with
  | nil => intro w lid sid map jobs; rfl
  | cons b rest ih =>
      intro w lid sid map jobs
      unfold process_slide_sub_images
      dsimp only
      simp only [firstOccs, List.foldl_cons]
      split
      · rename_i v hv
        have hmem : imageHash b ∈ map.map Prod.fst := by
          by_contra hc
          rw [(lookupHash_eq_none_iff map _).mpr hc] at hv
          cases hv
        have hsame : addHash (map.map Prod.fst) (imageHash b) = map.map Prod.fst := by
          simp [addHash, hmem]
        rw [hsame]
        exact ih w lid sid map jobs
      · rename_i hv
        have hmem : imageHash b ∉ map.map Prod.fst :=
          (lookupHash_eq_none_iff map _).mp hv
        have hadd : addHash (map.map Prod.fst) (imageHash b)
            = map.map Prod.fst ++ [imageHash b] := by
          simp [addHash, hmem]
        rw [hadd]
        refine (ih _ lid sid (map ++ [(imageHash b, w.db.nextId)])
          (jobs ++ [⟨w.db.nextId, lid, imageHash b⟩])).trans ?_
        simp [firstOccs]

/-- The resolver keeps the pending jobs aligned one-to-one with the map
keys. -/
theorem psi_jobs_keys :
    ∀ (imgs : List Img) (w : World) (lid sid : Nat) (map : List (Nat × Nat))
      (jobs : List IAJob),
      jobs.map IAJob.image_hash = map.map Prod.fst →
      (process_slide_sub_images w lid sid imgs map jobs).2.2.map IAJob.image_hash
        = (process_slide_sub_images w lid sid imgs map jobs).2.1.map Prod.fst := by
  intro imgs
  induction imgs with
  | nil => intro w lid sid map jobs h; exact h
  | cons b rest ih =>
      intro w lid sid map jobs h
      unfold process_slide_sub_images
      dsimp only
      split
      · exact ih w lid sid map jobs h
      · refine ih _ lid sid _ _ ?_
        simp [h]

/-- Map keys after the transaction body. -/
theorem rsb_keys (env : Env) (lid : Nat) (page : Page) (n : Nat) (w : World)
    (map : List (Nat × Nat)) (jobs : List IAJob) :
    (runSlideBody env lid page n w map jobs).2.1.map Prod.fst
      = firstOccs (map.map Prod.fst) page.sub_images := by
  unfold runSlideBody
  dsimp only
  split <;> exact psi_keys _ _ _ _ _ _

/-- Map keys after the slide transaction. -/
theorem txn_keys (env : Env) (lid : Nat) (page : Page) (n : Nat) (w : World)
    (map : List (Nat × Nat)) (jobs : List IAJob) :
    (runSlideTxn env lid page n w map jobs).2.1.map Prod.fst
      = firstOccs (map.map Prod.fst) page.sub_images := by
  unfold runSlideTxn
  dsimp only
  split <;> exact rsb_keys env lid page n w map jobs

/-- Jobs-keys alignment after the transaction body. -/
theorem rsb_jobs_keys (env : Env) (lid : Nat) (page : Page) (n : Nat) (w : World)
    (map : List (Nat × Nat)) (jobs : List IAJob)
    (h : jobs.map IAJob.image_hash = map.map Prod.fst) :
    (runSlideBody env lid page n w map jobs).2.2.1.map IAJob.image_hash
      = (runSlideBody env lid page n w map jobs).2.1.map Prod.fst := by
  unfold runSlideBody
  dsimp only
  split <;> exact psi_jobs_keys _ _ _ _ _ _ h

/-- Jobs-keys alignment after the slide transaction. -/
theorem txn_jobs_keys (env : Env) (lid : Nat) (page : Page) (n : Nat) (w : World)
    (map : List (Nat × Nat)) (jobs : List IAJob)
    (h : jobs.map IAJob.image_hash = map.map Prod.fst) :
    (runSlideTxn env lid page n w map jobs).2.2.1.map IAJob.image_hash
      = (runSlideTxn env lid page n w map jobs).2.1.map Prod.fst := by
  unfold runSlideTxn
  dsimp only
  split <;> exact rsb_jobs_keys env lid page n w map jobs h

/-- After a successful loop, the map keys are exactly the first
occurrences of all embedded-image hashes of the document. -/
theorem processSlides_keys (env : Env) (lid : Nat) :
    ∀ (pages : List Page) (n : Nat) (w : World) (map : List (Nat × Nat))
      (jobs : List IAJob),
      (processSlides env lid pages n w map jobs).2.2.2 = .ok () →
      (processSlides env lid pages n w map jobs).2.1.map Prod.fst
        = firstOccs (map.map Prod.fst) (pagesImgs pages) := by
  intro pages
  induction pages with
  | nil => intro n w map jobs _; simp [processSlides, pagesImgs, firstOccs]
  | cons page rest ih =>
      intro n w map jobs
      unfold processSlides
      dsimp only
      split
      · intro hok
        rw [pagesImgs_cons, firstOccs_append, ← txn_keys env lid page n w map jobs]
        exact ih (n + 1) _ _ _ hok
      · rename_i e heq
        intro hok
        rw [heq] at hok
        cases hok

/-- The loop keeps the pending jobs aligned one-to-one with the map
keys. -/
theorem processSlides_jobs_keys (env : Env) (lid : Nat) :
    ∀ (pages : List Page) (n : Nat) (w : World) (map : List (Nat × Nat))
      (jobs : List IAJob),
      jobs.map IAJob.image_hash = map.map Prod.fst →
      (processSlides env lid pages n w map jobs).2.2.1.map IAJob.image_hash
        = (processSlides env lid pages n w map jobs).2.1.map Prod.fst := by
  intro pages
  induction pages with
  | nil => intro n w map jobs h; exact h
  | cons page rest ih =>
      intro n w map jobs h
      unfold processSlides
      dsimp only
      split
      · exact ih (n + 1) _ _ _ (txn_jobs_keys env lid page n w map jobs h)
      · exact txn_jobs_keys env lid page n w map jobs h

/-- Published image-analysis hashes of a concatenated trace. -/
theorem iaHashes_append (t1 t2 : List Event) :
    iaHashes (t1 ++ t2) = iaHashes t1 ++ iaHashes t2 := by
  simp [iaHashes]

/-- Published embedding jobs of a concatenated trace. -/
theorem countEmbPub_append (t1 t2 : List Event) :
    countEmbPub (t1 ++ t2) = countEmbPub t1 + countEmbPub t2 := by
  simp [countEmbPub]

/-- Commit events publish no image-analysis jobs. -/
theorem iaHashes_commits :
    ∀ (tr : List Event), (∀ e ∈ tr, e.isCommit = true) → iaHashes tr = [] := by
  intro tr
  induction tr with
  | nil => intro _; rfl
  | cons e rest ih =>
      intro h
      have he := h e (by simp)
      cases e <;> simp_all [Event.isCommit, iaHashes, Event.iaHash]

/-- Commit events publish no embedding jobs. -/
theorem countEmbPub_commits :
    ∀ (tr : List Event), (∀ e ∈ tr, e.isCommit = true) → countEmbPub tr = 0 := by
  intro tr
  induction tr with
  | nil => intro _; rfl
  | cons e rest ih =>
      intro h
      have he := h e (by simp)
      cases e <;> simp_all [Event.isCommit, countEmbPub, Event.isEmbedding]

/-- Explanation publishes carry no image-analysis hashes. -/
theorem iaHashes_explanations :
    ∀ (tr : List Event), (∀ e ∈ tr, ∃ sid m p, e = Event.pubExplanation sid m p) →
      iaHashes tr = [] := by
  intro tr
  induction tr with
  | nil => intro _; rfl
  | cons e rest ih =>
      intro h
      obtain ⟨sid, m, p, rfl⟩ := h e (by simp)
      simp only [iaHashes, List.filterMap_cons, Event.iaHash]
      exact ih fun e2 h2 => h e2 (by simp [h2])

/-- Explanation publishes are not embedding jobs. -/
theorem countEmbPub_explanations :
    ∀ (tr : List Event), (∀ e ∈ tr, ∃ sid m p, e = Event.pubExplanation sid m p) →
      countEmbPub tr = 0 := by
  intro tr
  induction tr with
  | nil => intro _; rfl
  | cons e rest ih =>
      intro h
      obtain ⟨sid, m, p, rfl⟩ := h e (by simp)
      simp only [countEmbPub, List.filter_cons, Event.isEmbedding]
      exact ih fun e2 h2 => h e2 (by simp [h2])

/-- Publishing the pending jobs publishes exactly their hashes in
order. -/
theorem iaHashes_jobs (jobs : List IAJob) :
    iaHashes (jobs.map (fun j => Event.pubImageAnalysis j.slide_image_id j.image_hash))
      = jobs.map IAJob.image_hash := by
  induction jobs with
  | nil => rfl
  | cons j rest ih => simp [iaHashes, Event.iaHash] at ih ⊢; exact ih

/-- Publishing the pending image-analysis jobs publishes no embedding
job. -/
theorem countEmbPub_jobs (jobs : List IAJob) :
    countEmbPub (jobs.map (fun j => Event.pubImageAnalysis j.slide_image_id j.image_hash))
      = 0 := by
  induction jobs with
  | nil => rfl
  | cons j rest ih => simpa [countEmbPub, Event.isEmbedding] using ih

/-- In a successful run the published image-analysis hashes and the
embedding-job count are decided by whether the run map is empty. -/
theorem run_tail_counts (env : Env) (st : Settings) (lid : Nat)
    (sp c nm em : String) (w : World) (doc : Doc)
    (r : World × List (Nat × Nat) × List IAJob × Except Err Unit)
    (htr : w.trace = [])
    (hr : processSlides env lid doc.pages 1
        (preCore { w with s3Open := true, connOpen := true } lid doc.pages.length) [] [] = r)
    (heq : (ingest_run env st lid sp c nm em w).1
        = cleanup (postLoop r.1 lid r.2.1.length r.2.2.1)) :
    iaHashes (ingest_run env st lid sp c nm em w).1.trace
      = (if 0 < r.2.1.length then r.2.2.1.map IAJob.image_hash else [])
    ∧ countEmbPub (ingest_run env st lid sp c nm em w).1.trace
      = (if 0 < r.2.1.length then 0 else 1) := by
  obtain ⟨trC, htrC, hcom⟩ := processSlides_trace env lid doc.pages 1
    (preCore { w with s3Open := true, connOpen := true } lid doc.pages.length) [] []
  rw [hr] at htrC
  have h1 : (preCore { w with s3Open := true, connOpen := true } lid doc.pages.length).trace
      = [Event.statusWrite .parsing] := by
    simp [preCore, set_lecture_parsing, htr]
  rw [h1] at htrC
  obtain ⟨trE, htrE, hexp⟩ := dispatch_explanations_trace
    (get_slides_with_images_for_lecture
      (update_lecture_status (update_lecture_sub_image_count r.1 lid r.2.1.length)
        lid .explaining none).db lid)
    (update_lecture_status (update_lecture_sub_image_count r.1 lid r.2.1.length)
      lid .explaining none)
  have h2 : (update_lecture_status (update_lecture_sub_image_count r.1 lid r.2.1.length)
      lid .explaining none).trace = r.1.trace ++ [Event.statusWrite .explaining] := by
    simp [update_lecture_status, update_lecture_sub_image_count]
  rw [h2, htrC] at htrE
  have htail : (ingest_run env st lid sp c nm em w).1.trace
      = (([Event.statusWrite .parsing] ++ trC ++ [Event.statusWrite .explaining]) ++ trE)
        ++ (if 0 < r.2.1.length
            then r.2.2.1.map (fun j => Event.pubImageAnalysis j.slide_image_id j.image_hash)
            else [Event.pubEmbedding lid]) := by
    rw [heq]
    show (postLoop r.1 lid r.2.1.length r.2.2.1).trace = _
    unfold postLoop
    dsimp only
    unfold dispatch_tail
    split
    · dsimp only
      rw [htrE]
    · dsimp only
      rw [htrE]
  constructor
  · rw [htail, iaHashes_append, iaHashes_append, iaHashes_append, iaHashes_append,
        iaHashes_commits trC hcom, iaHashes_explanations trE hexp]
    have hp : iaHashes [Event.statusWrite .parsing] = [] := rfl
    have he : iaHashes [Event.statusWrite .explaining] = [] := rfl
    rw [hp, he]
    simp only [List.append_nil, List.nil_append]
    split
    · exact iaHashes_jobs r.2.2.1
    · rfl
  · rw [htail, countEmbPub_append, countEmbPub_append, countEmbPub_append, countEmbPub_append,
        countEmbPub_commits trC hcom, countEmbPub_explanations trE hexp]
    have hp : countEmbPub [Event.statusWrite .parsing] = 0 := rfl
    have he : countEmbPub [Event.statusWrite .explaining] = 0 := rfl
    rw [hp, he]
    simp only [Nat.add_zero, Nat.zero_add]
    split
    · exact countEmbPub_jobs r.2.2.1
    · rfl

/-- C4: if the document has at least one unique content-image hash,
exactly one ImageAnalysisJob per unique hash is published (the
published hash list equals the duplicate-free first-occurrence list)
and no EmbeddingJob; if it has none, no ImageAnalysisJob and exactly
one EmbeddingJob. -/
theorem C4_dispatch_exclusive (env : Env) (st : Settings) (lid : Nat) (sp c nm em : String)
    (w : World) (doc : Doc)
    (hres : (ingest_run env st lid sp c nm em w).2 = .ok ())
    (hex : verify_lecture_exists w.db lid = true)
    (hpdf : env.pdf = some doc)
    (htr : w.trace = []) :
    (firstOccs [] (allImgs doc) ≠ [] →
        iaHashes (ingest_run env st lid sp c nm em w).1.trace = firstOccs [] (allImgs doc)
        ∧ (iaHashes (ingest_run env st lid sp c nm em w).1.trace).Nodup
        ∧ countEmbPub (ingest_run env st lid sp c nm em w).1.trace = 0)
    ∧ (firstOccs [] (allImgs doc) = [] →
        iaHashes (ingest_run env st lid sp c nm em w).1.trace = []
        ∧ countEmbPub (ingest_run env st lid sp c nm em w).1.trace = 1) := by
  obtain ⟨doc2, r, hpdf2, hr, hok, heq⟩ := ingest_run_ok_shape env st lid sp c nm em w hres hex
  rw [hpdf] at hpdf2
  injection hpdf2 with hdd
  subst hdd
  obtain ⟨hia, hemb⟩ := run_tail_counts env st lid sp c nm em w doc r htr hr heq
  have hkeys : r.2.1.map Prod.fst = firstOccs [] (allImgs doc) := by
    have hks := processSlides_keys env lid doc.pages 1
      (preCore { w with s3Open := true, connOpen := true } lid doc.pages.length) [] []
      (by rw [hr]; exact hok)
    rw [hr] at hks
    simpa [allImgs] using hks
  have hjobs : r.2.2.1.map IAJob.image_hash = r.2.1.map Prod.fst := by
    have hjk := processSlides_jobs_keys env lid doc.pages 1
      (preCore { w with s3Open := true, connOpen := true } lid doc.pages.length) [] [] rfl
    rw [hr] at hjk
    exact hjk
  constructor
  · intro hne
    have hlen : 0 < r.2.1.length := by
      cases hk : r.2.1 with
      | nil =>
          rw [hk] at hkeys
          simp only [List.map_nil] at hkeys
          exact absurd hkeys.symm hne
      | cons p rest => simp [hk]
    rw [hia, hemb, if_pos hlen]
    exact ⟨hjobs.trans hkeys, by rw [hjobs, hkeys]; exact firstOccs_nodup _ _ (by simp),
      if_pos hlen ▸ rfl⟩
  · intro hz
    have hlen : ¬0 < r.2.1.length := by
      cases hk : r.2.1 with
      | nil => simp [hk]
      | cons p rest =>
          exfalso
          rw [hk, hz] at hkeys
          simp at hkeys
    rw [hia, hemb, if_neg hlen, if_neg hlen]
    exact ⟨rfl, rfl⟩

/-- Witness for C4 on a concrete run whose document has two unique
content images. -/
theorem C4_dispatch_exclusive_witness :
    (firstOccs [] (allImgs sampleDocDup) ≠ [] →
        iaHashes (ingest_run sampleEnvDup sampleSettings 1 "p" "c" "n" "e" sampleWorld).1.trace
          = firstOccs [] (allImgs sampleDocDup)
        ∧ (iaHashes (ingest_run sampleEnvDup sampleSettings 1 "p" "c" "n" "e" sampleWorld).1.trace).Nodup
        ∧ countEmbPub (ingest_run sampleEnvDup sampleSettings 1 "p" "c" "n" "e" sampleWorld).1.trace = 0)
    ∧ (firstOccs [] (allImgs sampleDocDup) = [] →
        iaHashes (ingest_run sampleEnvDup sampleSettings 1 "p" "c" "n" "e" sampleWorld).1.trace = []
        ∧ countEmbPub (ingest_run sampleEnvDup sampleSettings 1 "p" "c" "n" "e" sampleWorld).1.trace = 1) :=
  C4_dispatch_exclusive sampleEnvDup sampleSettings 1 "p" "c" "n" "e" sampleWorld
    sampleDocDup rfl rfl rfl rfl



/-- Filter count over a one-element extension. -/
theorem count_filter_append_one {α : Type} (p : α → Bool) (l : List α) (a : α) :
    (List.filter p (l ++ [a])).length
      = (List.filter p l).length + (if p a then 1 else 0) := by
  simp [List.filter_append, List.filter]
  split <;> simp_all

/-- The dedup invariant only depends on the SlideImage rows and the
stored objects. -/
theorem dedupInv_congr (lid : Nat) (w w2 : World) (map : List (Nat × Nat))
    (jobs : List IAJob)
    (him : w2.db.slide_images = w.db.slide_images) (hst : w2.storage = w.storage)
    (h : DedupInv lid w map jobs) : DedupInv lid w2 map jobs := by
  obtain ⟨h1, h2, h3, h4⟩ := h
  refine ⟨h1, h2, fun hh => ?_, fun hh => ?_⟩
  · unfold countContentRows
    rw [him]
    exact h3 hh
  · unfold countContentUploads
    rw [hst]
    exact h4 hh

/-- Rendering the full page preserves the dedup invariant: the new row
has the full type and the new object a slide-addressed key. -/
theorem render_inv (w : World) (page : Page) (lid sid n : Nat)
    (map : List (Nat × Nat)) (jobs : List IAJob)
    (h : DedupInv lid w map jobs) :
    DedupInv lid (render_and_upload_slide_image w page lid sid n) map jobs := by
  obtain ⟨h1, h2, h3, h4⟩ := h
  refine ⟨h1, h2, fun hh => ?_, fun hh => ?_⟩
  · unfold countContentRows render_and_upload_slide_image
    dsimp only
    rw [count_filter_append_one]
    have : ((ImgType.full == ImgType.content) && (imageHash page.render == hh)) = false := rfl
    rw [this]
    simpa [countContentRows] using h3 hh
  · unfold countContentUploads render_and_upload_slide_image
    dsimp only
    rw [count_filter_append_one]
    have : ((S3Key.slideKey lid n : S3Key) == S3Key.contentKey lid hh) = false := by
      simp
    rw [this]
    simpa [countContentUploads] using h4 hh

/-- The sub-image resolver preserves the dedup invariant: each new hash
gets exactly one row, one upload and one pending job. -/
theorem psi_inv :
    ∀ (imgs : List Img) (w : World) (lid sid : Nat) (map : List (Nat × Nat))
      (jobs : List IAJob),
      DedupInv lid w map jobs →
      DedupInv lid (process_slide_sub_images w lid sid imgs map jobs).1
        (process_slide_sub_images w lid sid imgs map jobs).2.1
        (process_slide_sub_images w lid sid imgs map jobs).2.2 := by
  intro imgs
  induction imgs with
  | nil => intro w lid sid map jobs h; exact h
  | cons b rest ih =>
      intro w lid sid map jobs h
      unfold process_slide_sub_images
      dsimp only
      split
      · exact ih w lid sid map jobs h
      · rename_i hv
        refine ih _ lid sid _ _ ?_
        obtain ⟨h1, h2, h3, h4⟩ := h
        have hmem : imageHash b ∉ map.map Prod.fst :=
          (lookupHash_eq_none_iff map _).mp hv
        refine ⟨?_, ?_, fun hq => ?_, fun hq => ?_⟩
        · simp [h1]
        · simp [List.nodup_append, h2, hmem]
        · unfold countContentRows
          dsimp only
          rw [count_filter_append_one]
          by_cases hbq : imageHash b = hq
          · have hc : ((ImgType.content == ImgType.content)
                && (imageHash b == hq)) = true := by
              simp [hbq]
            rw [hc]
            have h0 := h3 hq
            unfold countContentRows at h0
            rw [h0]
            rw [← hbq] at *
            simp [hmem]
          · have hc : ((ImgType.content == ImgType.content)
                && (imageHash b == hq)) = false := by
              simp [hbq]
            rw [hc]
            have h0 := h3 hq
            unfold countContentRows at h0
            rw [h0]
            have hbq2 : ¬hq = imageHash b := fun hh => hbq hh.symm
            by_cases hmem2 : hq ∈ List.map Prod.fst map <;> simp [hmem2, hbq2]
        · unfold countContentUploads
          dsimp only
          rw [count_filter_append_one]
          by_cases hbq : imageHash b = hq
          · have hc : ((S3Key.contentKey lid (imageHash b) : S3Key)
                == S3Key.contentKey lid hq) = true := by
              simp [hbq]
            rw [hc]
            have h0 := h4 hq
            unfold countContentUploads at h0
            rw [h0]
            rw [← hbq] at *
            simp [hmem]
          · have hc : ((S3Key.contentKey lid (imageHash b) : S3Key)
                == S3Key.contentKey lid hq) = false := by
              simp [hbq]
            rw [hc]
            have h0 := h4 hq
            unfold countContentUploads at h0
            rw [h0]
            have hbq2 : ¬hq = imageHash b := fun hh => hbq hh.symm
            by_cases hmem2 : hq ∈ List.map Prod.fst map <;> simp [hmem2, hbq2]

/-- The transaction body preserves the dedup invariant. -/
theorem rsb_inv (env : Env) (lid : Nat) (page : Page) (n : Nat) (w : World)
    (map : List (Nat × Nat)) (jobs : List IAJob)
    (h : DedupInv lid w map jobs) :
    DedupInv lid (runSlideBody env lid page n w map jobs).1
      (runSlideBody env lid page n w map jobs).2.1
      (runSlideBody env lid page n w map jobs).2.2.1 := by
  unfold runSlideBody
  dsimp only
  have hbase : DedupInv lid
      ({ w with db := (insertChunks (get_or_create_slide w.db lid n page.text).1
          (get_or_create_slide w.db lid n page.text).2 lid n
          (chunk_text_by_tokens page.text)) } : World) map jobs := by
    refine dedupInv_congr lid w _ map jobs ?_ rfl h
    exact ((insertChunks_frame _ _ _ _ _).2.2.1).trans ((gocs_frame _ _ _ _).2.2)
  split <;> exact psi_inv _ _ _ _ _ _ (render_inv _ page lid _ n map jobs hbase)

/-- A committing slide transaction preserves the dedup invariant. -/
theorem txn_inv (env : Env) (lid : Nat) (page : Page) (n : Nat) (w : World)
    (map : List (Nat × Nat)) (jobs : List IAJob)
    (h : DedupInv lid w map jobs) :
    (runSlideTxn env lid page n w map jobs).2.2.2 = .ok () →
    DedupInv lid (runSlideTxn env lid page n w map jobs).1
      (runSlideTxn env lid page n w map jobs).2.1
      (runSlideTxn env lid page n w map jobs).2.2.1 := by
  unfold runSlideTxn
  dsimp only
  split
  · intro _
    exact dedupInv_congr lid _ _ _ _ rfl rfl (rsb_inv env lid page n w map jobs h)
  · intro hok
    simp at hok

/-- A successful slide loop preserves the dedup invariant. -/
theorem processSlides_inv (env : Env) (lid : Nat) :
    ∀ (pages : List Page) (n : Nat) (w : World) (map : List (Nat × Nat))
      (jobs : List IAJob),
      DedupInv lid w map jobs →
      (processSlides env lid pages n w map jobs).2.2.2 = .ok () →
      DedupInv lid (processSlides env lid pages n w map jobs).1
        (processSlides env lid pages n w map jobs).2.1
        (processSlides env lid pages n w map jobs).2.2.1 := by
  intro pages
  induction pages with
  | nil => intro n w map jobs h _; exact h
  | cons page rest ih =>
      intro n w map jobs h
      unfold processSlides
      dsimp only
      split
      · rename_i u heq
        cases u
        intro hok
        exact ih (n + 1) _ _ _ (txn_inv env lid page n w map jobs h heq) hok
      · rename_i e heq
        intro hok
        rw [heq] at hok
        cases hok

/-- Explanation dispatch touches only the trace. -/
theorem dispatch_explanations_frame :
    ∀ (recs : List (Nat × Nat × Option String)) (w : World),
      (dispatch_explanations w recs).db = w.db
      ∧ (dispatch_explanations w recs).storage = w.storage := by
  intro recs
  induction recs with
  | nil => intro w; exact ⟨rfl, rfl⟩
  | cons rec rest ih =>
      intro w
      rcases rec with ⟨sid, m, _ | path⟩
      · simpa [dispatch_explanations, List.foldl_cons] using ih w
      · simpa [dispatch_explanations, List.foldl_cons] using
          ih { w with trace := w.trace ++ [.pubExplanation sid m path] }

/-- Tail dispatch touches only the trace. -/
theorem dispatch_tail_frame (w : World) (lid ts : Nat) (jobs : List IAJob) :
    (dispatch_tail w lid ts jobs).db = w.db
    ∧ (dispatch_tail w lid ts jobs).storage = w.storage := by
  unfold dispatch_tail
  split <;> exact ⟨rfl, rfl⟩

/-- The post-loop section changes no SlideImage rows and no stored
objects. -/
theorem postLoop_frame (wd : World) (lid ts : Nat) (jobs : List IAJob) :
    (postLoop wd lid ts jobs).db.slide_images = wd.db.slide_images
    ∧ (postLoop wd lid ts jobs).storage = wd.storage := by
  unfold postLoop
  dsimp only
  constructor
  · rw [(dispatch_tail_frame _ lid ts jobs).1, (dispatch_explanations_frame _ _).1]
    rfl
  · rw [(dispatch_tail_frame _ lid ts jobs).2, (dispatch_explanations_frame _ _).2]
    rfl

/-- C2: within one run reaching dispatch, every image byte sequence
occurring at least once in the document yields exactly one content
SlideImage row, exactly one stored object under its content-addressed
key, and exactly one published ImageAnalysisJob for its hash. -/
theorem C2_image_dedup (env : Env) (st : Settings) (lid : Nat) (sp c nm em : String)
    (w : World) (doc : Doc)
    (hres : (ingest_run env st lid sp c nm em w).2 = .ok ())
    (hex : verify_lecture_exists w.db lid = true)
    (hpdf : env.pdf = some doc)
    (htr : w.trace = [])
    (him : w.db.slide_images = [])
    (hst : w.storage = []) :
    ∀ b ∈ allImgs doc,
      countContentRows (ingest_run env st lid sp c nm em w).1.db (imageHash b) = 1
      ∧ countContentUploads lid (ingest_run env st lid sp c nm em w).1.storage (imageHash b) = 1
      ∧ (iaHashes (ingest_run env st lid sp c nm em w).1.trace).count (imageHash b) = 1 := by
  intro b hb
  obtain ⟨doc2, r, hpdf2, hr, hok, heq⟩ := ingest_run_ok_shape env st lid sp c nm em w hres hex
  rw [hpdf] at hpdf2
  injection hpdf2 with hdd
  subst hdd
  have hinv0 : DedupInv lid
      (preCore { w with s3Open := true, connOpen := true } lid doc.pages.length) [] [] := by
    refine dedupInv_congr lid w _ [] [] rfl rfl ?_
    exact ⟨rfl, List.nodup_nil, fun h => by simp [countContentRows, him],
      fun h => by simp [countContentUploads, hst]⟩
  have hinv := processSlides_inv env lid doc.pages 1
    (preCore { w with s3Open := true, connOpen := true } lid doc.pages.length) [] []
    hinv0 (by rw [hr]; exact hok)
  rw [hr] at hinv
  obtain ⟨hjk, hnodup, hrows, hupl⟩ := hinv
  have hkeys : r.2.1.map Prod.fst = firstOccs [] (allImgs doc) := by
    have hks := processSlides_keys env lid doc.pages 1
      (preCore { w with s3Open := true, connOpen := true } lid doc.pages.length) [] []
      (by rw [hr]; exact hok)
    rw [hr] at hks
    simpa [allImgs] using hks
  have hmem : imageHash b ∈ r.2.1.map Prod.fst := by
    rw [hkeys, firstOccs_mem]
    exact Or.inr (List.mem_map_of_mem imageHash hb)
  have hfrm := postLoop_frame r.1 lid r.2.1.length r.2.2.1
  refine ⟨?_, ?_, ?_⟩
  · have hdbeq : (ingest_run env st lid sp c nm em w).1.db.slide_images
        = r.1.db.slide_images := by
      rw [heq]
      exact hfrm.1
    unfold countContentRows
    rw [hdbeq]
    have := hrows (imageHash b)
    unfold countContentRows at this
    rw [this, if_pos hmem]
  · have hsteq : (ingest_run env st lid sp c nm em w).1.storage = r.1.storage := by
      rw [heq]
      exact hfrm.2
    unfold countContentUploads
    rw [hsteq]
    have := hupl (imageHash b)
    unfold countContentUploads at this
    rw [this, if_pos hmem]
  · obtain ⟨hia, _⟩ := run_tail_counts env st lid sp c nm em w doc r htr hr heq
    have hlen : 0 < r.2.1.length := by
      cases hk : r.2.1 with
      | nil => rw [hk] at hmem; simp at hmem
      | cons p rest => simp [hk]
    rw [hia, if_pos hlen, hjk]
    exact List.count_eq_one_of_mem hnodup hmem

/-- Witness for C2: image 5 occurs on both pages of the sample document
yet yields one row, one upload and one job. -/
theorem C2_image_dedup_witness :
    countContentRows
        (ingest_run sampleEnvDup sampleSettings 1 "p" "c" "n" "e" sampleWorld).1.db
        (imageHash 5) = 1
    ∧ countContentUploads 1
        (ingest_run sampleEnvDup sampleSettings 1 "p" "c" "n" "e" sampleWorld).1.storage
        (imageHash 5) = 1
    ∧ (iaHashes
        (ingest_run sampleEnvDup sampleSettings 1 "p" "c" "n" "e" sampleWorld).1.trace).count
        (imageHash 5) = 1 :=
  C2_image_dedup sampleEnvDup sampleSettings 1 "p" "c" "n" "e" sampleWorld sampleDocDup
    rfl rfl rfl rfl rfl rfl 5 (by decide)

end Miniclue




